import Mathlib

/-! Sparse matrices in COO and CSR layout.

A shallow embedding of `src/HW1/SparseMatrix.cpp` (class `SparseMatrixCOO`) and of
`src/HW1/SparseMatrixCSR_Marta.cpp` (class `SparseMatrixCSR`).

Conventions of the embedding.

* A `std::vector` is a `List`; reading or inserting outside a vector is undefined behaviour in
  C++ and is the outcome `Res.ub` here.
* The dimensions are the non-negative `int`s of the data model, so they are `Nat`.  The
  `unsigned int` arguments `row`, `col` are `Nat`.  Every index a range check lets through is at
  most the dimension, hence fits an `int`, so the conversions between `int` and `unsigned int`
  of the source are the identity on all numbers that occur and the stored indices are `Nat`.
* The scalars are `double` in the source.  The access operators only store, copy and return
  them, so the scalar type is a parameter `α`; equality on `α` is identity of the stored datum.
  The literal `0.0` is `(0 : α)`.
* A member function that can throw or change the object returns its outcome together with
  the object after the call.
* The CSR class of the source defines no product operator; the CSR product here follows the
  spec and is marked as such at its definition.
-/

namespace SparseMatrix

/-- The two standard exceptions the source throws, with the text given to `what()`. -/
inductive Exn where
  | out_of_range (what : String)
  | invalid_argument (what : String)
  deriving DecidableEq

/-- The exception classes of `<stdexcept>` used by the source. -/
inductive ExnKind where
  | out_of_range
  | invalid_argument
  deriving DecidableEq

/-- The class of an exception: what a `catch` clause can tell apart. -/
def Exn.kind : Exn → ExnKind
  | .out_of_range _ => .out_of_range
  | .invalid_argument _ => .invalid_argument

/-- Outcome of a call: normal return, a thrown exception, or an access outside a vector. -/
inductive Res (β : Type) where
  | ret (b : β)
  | throw (e : Exn)
  | ub
  deriving DecidableEq

/-- The text thrown by the range checks. -/
def msgRange : String := "Position out of range"

/-- The text thrown by the COO read operator when no entry matches. -/
def msgNotFound : String := "Element not found in sparse matrix."

/-- The text thrown by the CSR write operator on an occupied position. -/
def msgOccupied : String := "There is already an entry in this position"

/-- The text thrown by the product operator when the vector has the wrong length. -/
def msgDim : String := "Vector size does not match matrix dimensions."

/-! ## COO store (`SparseMatrix.cpp`, lines 19-85) -/

/-- The data members of `SparseMatrixCOO`. -/
structure SparseMatrixCOO (α : Type) where
  values : List α
  rows : List Nat
  cols : List Nat
  num_rows : Nat
  num_cols : Nat
  deriving DecidableEq

namespace SparseMatrixCOO

variable {α : Type}

/-- The constructor `SparseMatrixCOO(rows, cols)`: the three vectors start empty. -/
def construct (rows cols : Nat) : SparseMatrixCOO α :=
  ⟨[], [], [], rows, cols⟩

def get_num_rows (m : SparseMatrixCOO α) : Nat := m.num_rows

def get_num_cols (m : SparseMatrixCOO α) : Nat := m.num_cols

def get_nnz (m : SparseMatrixCOO α) : Nat := m.values.length

/-- The loop of the read operator from index `i` on, with `n` iterations left
(`n = values.size() - i`).  When the loop runs out the operator throws. -/
def getLoop (m : SparseMatrixCOO α) (row col : Nat) : Nat → Nat → Res α
  | 0, _ => .throw (.out_of_range msgNotFound)
  | n + 1, i =>
    match m.rows[i]? with
    | none => .ub
    | some r =>
      if r = row then
        match m.cols[i]? with
        | none => .ub
        | some c =>
          if c = col then
            match m.values[i]? with
            | none => .ub
            | some v => .ret v
          else getLoop m row col n (i + 1)
      else getLoop m row col n (i + 1)

/-- The read operator `operator()(row, col) const`. -/
def get (m : SparseMatrixCOO α) (row col : Nat) : Res α :=
  m.getLoop row col m.values.length 0

/-- The trailing loop of the write operator,
`for (int i = rows.size()-2; rows[i] < row; i--) if (rows[i] > row) rows[i+1] = rows[i];`
The argument is `i + 1`, so `0` stands for `i = -1`, where `rows[i]` lies outside the vector.
The result is the outcome of the loop and the vector `rows` when it stops. -/
def scan (row : Nat) : Nat → List Nat → Res Unit × List Nat
  | 0, rows => (.ub, rows)
  | i + 1, rows =>
    match rows[i]? with
    | none => (.ub, rows)
    | some r =>
      if r < row then
        scan row i (if r > row then rows.set (i + 1) r else rows)
      else (.ret (), rows)

/-- The write operator `operator()(row, col, value)`: range check with `>`, three
`push_back`s, then the trailing loop.  The body has no `return` statement; `Res.ret ()` says
that control reaches the end of the body. -/
def set (m : SparseMatrixCOO α) (row col : Nat) (value : α) : Res Unit × SparseMatrixCOO α :=
  if row > m.num_rows ∨ col > m.num_cols then
    (.throw (.out_of_range msgRange), m)
  else
    let rows := m.rows ++ [row]
    let cols := m.cols ++ [col]
    let values := m.values ++ [value]
    let r := scan row (rows.length - 1) rows
    (r.1, ⟨values, r.2, cols, m.num_rows, m.num_cols⟩)

/-- The three index/value vectors have one length. -/
def WF (m : SparseMatrixCOO α) : Prop :=
  m.rows.length = m.values.length ∧ m.cols.length = m.values.length

instance (m : SparseMatrixCOO α) : Decidable m.WF := by
  unfold WF; exact inferInstance

/-- The indices `i` at which the trailing loop of the write operator executes the assignment
`rows[i+1] = rows[i]`: the loop `scan` again, recording the assignments instead of the
outcome. -/
def scanAssigned (row : Nat) : Nat → List Nat → List Nat
  | 0, _ => []
  | i + 1, rows =>
    match rows[i]? with
    | none => []
    | some r =>
      if r < row then
        (if r > row then [i] else []) ++
          scanAssigned row i (if r > row then rows.set (i + 1) r else rows)
      else []

/-- The loop of the product operator from index `i` on, with `n = values.size() - i`
iterations left: `result[rows[i]] += values[i] * vec[cols[i]]`. -/
def mulLoop [Add α] [Mul α] (m : SparseMatrixCOO α) (vec : List α) :
    Nat → Nat → List α → Res (List α)
  | 0, _, result => .ret result
  | n + 1, i, result =>
    match m.rows[i]?, m.values[i]?, m.cols[i]? with
    | some r, some v, some c =>
      match result[r]?, vec[c]? with
      | some acc, some x => mulLoop m vec n (i + 1) (result.set r (acc + v * x))
      | _, _ => .ub
    | _, _, _ => .ub

/-- The product operator `operator*(vec)`. -/
def multiply [Zero α] [Add α] [Mul α] (m : SparseMatrixCOO α) (vec : List α) : Res (List α) :=
  if vec.length ≠ m.num_cols then .throw (.invalid_argument msgDim)
  else m.mulLoop vec m.values.length 0 (List.replicate m.num_rows 0)

/-- Every stored index lies inside the matrix. -/
def InBounds (m : SparseMatrixCOO α) : Prop :=
  (∀ r ∈ m.rows, r < m.num_rows) ∧ (∀ c ∈ m.cols, c < m.num_cols)

instance (m : SparseMatrixCOO α) : Decidable m.InBounds := by
  unfold InBounds; exact inferInstance

/-- The stored triples `(row, col, value)` in storage order. -/
def entries (m : SparseMatrixCOO α) : List (Nat × Nat × α) :=
  m.rows.zip (m.cols.zip m.values)

/-- The sum of `value * vec[col]` over the triples of row `r`, in the order of the list. -/
def rowSum [Zero α] [Add α] [Mul α] (es : List (Nat × Nat × α)) (vec : List α) (r : Nat) : α :=
  ((es.filter (fun e => decide (e.1 = r))).map (fun e => e.2.2 * vec[e.2.1]?.getD 0)).sum

end SparseMatrixCOO

/-! ## CSR store (`SparseMatrixCSR_Marta.cpp`, lines 93-160) -/

/-- The data members of `SparseMatrixCSR`. -/
structure SparseMatrixCSR (α : Type) where
  values : List α
  columns : List Nat
  row_idx : List Nat
  num_rows : Nat
  num_cols : Nat
  deriving DecidableEq

/-- The call `v.insert(v.begin() + p, x)`: defined for `p ≤ v.size()` only. -/
def vecInsert {β : Type} (v : List β) (p : Nat) (x : β) : Option (List β) :=
  if p ≤ v.length then some (v.take p ++ x :: v.drop p) else none

/-- The loop `for (i = start; i < v.size(); ++i) v[i] += 1`. -/
def bumpFrom : Nat → List Nat → List Nat
  | _, [] => []
  | 0, x :: xs => (x + 1) :: bumpFrom 0 xs
  | n + 1, x :: xs => x :: bumpFrom n xs

namespace SparseMatrixCSR

variable {α : Type}

/-- The constructor `SparseMatrixCSR(rows, cols)`: `row_idx(rows + 1, 0)`. -/
def construct (rows cols : Nat) : SparseMatrixCSR α :=
  ⟨[], [], List.replicate (rows + 1) 0, rows, cols⟩

def get_num_rows (m : SparseMatrixCSR α) : Nat := m.num_rows

def get_num_cols (m : SparseMatrixCSR α) : Nat := m.num_cols

def get_nnz (m : SparseMatrixCSR α) : Nat := m.values.length

/-- The search loop of the read operator from index `k` on, with `n = row_end - k`
iterations left; the operator returns `0.0` when the loop runs out. -/
def getLoop [Zero α] (columns : List Nat) (values : List α) (col : Nat) : Nat → Nat → Res α
  | 0, _ => .ret 0
  | n + 1, k =>
    match columns[k]? with
    | none => .ub
    | some c =>
      if c = col then
        match values[k]? with
        | none => .ub
        | some v => .ret v
      else getLoop columns values col n (k + 1)

/-- The read operator `operator()(row, col) const`. -/
def get [Zero α] (m : SparseMatrixCSR α) (row col : Nat) : Res α :=
  if row ≥ m.num_rows ∨ col ≥ m.num_cols then .throw (.out_of_range msgRange)
  else
    match m.row_idx[row]?, m.row_idx[row + 1]? with
    | some row_start, some row_end =>
      getLoop m.columns m.values col (row_end - row_start) row_start
    | _, _ => .ub

/-- The occupancy loop of the write operator from index `k` on, with `n = row_end - k`
iterations left. -/
def checkLoop (columns : List Nat) (col : Nat) : Nat → Nat → Res Unit
  | 0, _ => .ret ()
  | n + 1, k =>
    match columns[k]? with
    | none => .ub
    | some c =>
      if c = col then .throw (.out_of_range msgOccupied)
      else checkLoop columns col n (k + 1)

/-- The write operator `operator()(row, col)`.  It returns a reference to
`values[row_end]`; the embedding returns the index `row_end` of that slot. -/
def slot [Zero α] (m : SparseMatrixCSR α) (row col : Nat) : Res Nat × SparseMatrixCSR α :=
  if row ≥ m.num_rows ∨ col ≥ m.num_cols then (.throw (.out_of_range msgRange), m)
  else
    match m.row_idx[row]?, m.row_idx[row + 1]? with
    | some row_start, some row_end =>
      match checkLoop m.columns col (row_end - row_start) row_start with
      | .throw e => (.throw e, m)
      | .ub => (.ub, m)
      | .ret () =>
        match vecInsert m.columns row_end col, vecInsert m.values row_end 0 with
        | some columns, some values =>
          (.ret row_end, ⟨values, columns, bumpFrom (row + 1) m.row_idx, m.num_rows, m.num_cols⟩)
        | _, _ => (.ub, m)
    | _, _ => (.ub, m)

/-- A set: the write operator followed by the assignment of `value` to the returned slot,
`m(row, col) = value`. -/
def set [Zero α] (m : SparseMatrixCSR α) (row col : Nat) (value : α) :
    Res Unit × SparseMatrixCSR α :=
  match m.slot row col with
  | (.ret p, m1) => (.ret (), { m1 with values := m1.values.set p value })
  | (.throw e, m1) => (.throw e, m1)
  | (.ub, m1) => (.ub, m1)

/-- A sequence of sets `(row, col, value)`, stopping at the first one that does not return. -/
def setAll [Zero α] (m : SparseMatrixCSR α) : List (Nat × Nat × α) → Res Unit × SparseMatrixCSR α
  | [] => (.ret (), m)
  | (row, col, value) :: ops =>
    match m.set row col value with
    | (.ret (), m1) => setAll m1 ops
    | r => r

/-- The row-pointer invariant of the data model. -/
def Inv (m : SparseMatrixCSR α) : Prop :=
  m.row_idx.length = m.num_rows + 1 ∧ m.row_idx[0]? = some 0 ∧
  m.row_idx.Pairwise (· ≤ ·) ∧ m.columns.length = m.values.length ∧
  m.row_idx[m.num_rows]? = some m.get_nnz

instance (m : SparseMatrixCSR α) : Decidable m.Inv := by
  unfold Inv; exact inferInstance

/-- Row `row` already holds an entry in column `col`: some index of the slice
`[row_idx[row], row_idx[row+1])` carries `col` in `columns`. -/
def holds (m : SparseMatrixCSR α) (row col : Nat) : Prop :=
  ∃ s e k, m.row_idx[row]? = some s ∧ m.row_idx[row + 1]? = some e ∧ s ≤ k ∧ k < e ∧
    m.columns[k]? = some col

/-- The stored entries `(column, value)` of row `r`, in storage order: the slice
`[row_idx[r], row_idx[r+1])` of the two parallel vectors. -/
def rowSlice (m : SparseMatrixCSR α) (r : Nat) : List (Nat × α) :=
  ((m.columns.zip m.values).take (m.row_idx[r + 1]?.getD 0)).drop (m.row_idx[r]?.getD 0)

/-- The column indices stored for row `r`, in storage order. -/
def rowCols (m : SparseMatrixCSR α) (r : Nat) : List Nat :=
  (m.rowSlice r).map Prod.fst

/-- The store after a successful write at `(row, col)` with `value` put in the slot. -/
def inserted (m : SparseMatrixCSR α) (row col : Nat) (value : α) :
    SparseMatrixCSR α :=
  let p := m.row_idx[row + 1]?.getD 0
  ⟨m.values.take p ++ value :: m.values.drop p, m.columns.take p ++ col :: m.columns.drop p,
    bumpFrom (row + 1) m.row_idx, m.num_rows, m.num_cols⟩

/-- A sequence of set calls `(row, col, value)`, each made on the store the previous one
left, whether it returned or threw. -/
def setEach [Zero α] (m : SparseMatrixCSR α) : List (Nat × Nat × α) → SparseMatrixCSR α
  | [] => m
  | (row, col, value) :: ops => setEach (m.set row col value).2 ops

/-- Every stored column index lies inside the matrix. -/
def ColsInRange (m : SparseMatrixCSR α) : Prop :=
  ∀ c ∈ m.columns, c < m.num_cols

instance (m : SparseMatrixCSR α) : Decidable m.ColsInRange := by
  unfold ColsInRange; exact inferInstance

/-- Modelled from the spec: the reduction of one row in `SparseMatrixCSR::operator*`, which
the source only declares (pure virtual in the base class, line 13) and the CSR class does not
define.  Accumulates `value[k] * vec[colIndex[k]]` from index `k` on, with `n` indices of
the slice left. -/
def rowDot [Add α] [Mul α] (columns : List Nat) (values vec : List α) : Nat → Nat → α → Res α
  | 0, _, acc => .ret acc
  | n + 1, k, acc =>
    match columns[k]?, values[k]? with
    | some c, some v =>
      match vec[c]? with
      | some x => rowDot columns values vec n (k + 1) (acc + v * x)
      | none => .ub
    | _, _ => .ub

/-- Modelled from the spec: the loop over the rows in `SparseMatrixCSR::operator*`, missing
from the source as above.  For each row `r` from `r` on, with `n` rows left, reduce the
slice `[rowPointer[r], rowPointer[r+1])`. -/
def mulRows [Zero α] [Add α] [Mul α] (m : SparseMatrixCSR α) (vec : List α) :
    Nat → Nat → Res (List α)
  | 0, _ => .ret []
  | n + 1, r =>
    match m.row_idx[r]?, m.row_idx[r + 1]? with
    | some row_start, some row_end =>
      match rowDot m.columns m.values vec (row_end - row_start) row_start 0 with
      | .ret x =>
        match mulRows m vec n (r + 1) with
        | .ret xs => .ret (x :: xs)
        | .throw e => .throw e
        | .ub => .ub
      | .throw e => .throw e
      | .ub => .ub
    | _, _ => .ub

/-- Modelled from the spec: `SparseMatrixCSR::operator*(vec)`, missing from the source as
above.  Fails with the dimension-mismatch error if `len(vec) != cols`; otherwise
`result[r]` is the sum of `value[k] * vec[colIndex[k]]` over the slice of row `r`.  The
error is the one the COO operator of the source throws. -/
def multiply [Zero α] [Add α] [Mul α] (m : SparseMatrixCSR α) (vec : List α) : Res (List α) :=
  if vec.length ≠ m.num_cols then .throw (.invalid_argument msgDim)
  else m.mulRows vec m.num_rows 0

/-- The sum of `values[k] * vec[columns[k]]` over the slice of row `r`, in storage order. -/
def rowProd [Zero α] [Add α] [Mul α] (m : SparseMatrixCSR α) (vec : List α) (r : Nat) : α :=
  ((m.rowSlice r).map (fun e => e.2 * vec[e.1]?.getD 0)).sum

end SparseMatrixCSR

/-- The entries `(column, value)` that a sequence of sets puts in row `r`, in the order of
the sets. -/
def entriesOf {α : Type} (ops : List (Nat × Nat × α)) (r : Nat) : List (Nat × α) :=
  (ops.filter (fun o => decide (o.1 = r))).map (fun o => (o.2.1, o.2.2))

/-- The positions `(row, col)` of a sequence of sets. -/
def positions {α : Type} (ops : List (Nat × Nat × α)) : List (Nat × Nat) :=
  ops.map (fun o => (o.1, o.2.1))

/-! ## List lemmas for the vector operations -/

theorem slice_insert_below {β : Type} (xs : List β) (x : β) (p s e : Nat) (hep : e ≤ p)
    (hp : p ≤ xs.length) :
    ((xs.take p ++ x :: xs.drop p).take e).drop s = (xs.take e).drop s := by
  rw [List.take_append_of_le_length (by simp; omega), List.take_take]
  simp [Nat.min_eq_left hep]

theorem slice_insert_end {β : Type} (xs : List β) (x : β) (p s : Nat) (hsp : s ≤ p)
    (hp : p ≤ xs.length) :
    ((xs.take p ++ x :: xs.drop p).take (p + 1)).drop s = (xs.take p).drop s ++ [x] := by
  have h1 : (xs.take p ++ x :: xs.drop p).take (p + 1) = xs.take p ++ [x] := by
    rw [List.take_append_eq_append_take]
    simp [Nat.min_eq_left hp]
  rw [h1, List.drop_append_of_le_length (by simp; omega)]

theorem slice_insert_above {β : Type} (xs : List β) (x : β) (p s e : Nat) (hps : p ≤ s)
    (hp : p ≤ xs.length) :
    ((xs.take p ++ x :: xs.drop p).take (e + 1)).drop (s + 1) = (xs.take e).drop s := by
  apply List.ext_getElem?
  intro i
  simp only [List.getElem?_drop, List.getElem?_take]
  by_cases h : s + i < e
  · have h1 : s + 1 + i < e + 1 := by omega
    simp only [h, h1, if_true]
    rw [List.getElem?_append_right (by simp; omega)]
    have h2 : s + 1 + i - (List.take p xs).length = (s + i - p) + 1 := by
      simp [Nat.min_eq_left hp]; omega
    rw [h2, List.getElem?_cons_succ, List.getElem?_drop]
    congr 1; omega
  · have h1 : ¬ s + 1 + i < e + 1 := by omega
    simp [h, h1]

theorem set_insert {β : Type} (xs : List β) (x y : β) (p : Nat) (hp : p ≤ xs.length) :
    (xs.take p ++ x :: xs.drop p).set p y = xs.take p ++ y :: xs.drop p := by
  have : (xs.take p).length = p := by simp [Nat.min_eq_left hp]
  rw [List.set_append_right _ _ (by omega)]
  simp [this]

theorem zip_insert {β γ : Type} (xs : List β) (ys : List γ) (x : β) (y : γ) (p : Nat)
    (hlen : xs.length = ys.length) :
    (xs.take p ++ x :: xs.drop p).zip (ys.take p ++ y :: ys.drop p) =
      (xs.zip ys).take p ++ (x, y) :: (xs.zip ys).drop p := by
  rw [List.zip_append (by simp [hlen])]
  simp [List.zip, List.take_zipWith, List.drop_zipWith]

theorem bumpFrom_length (n : Nat) (xs : List Nat) : (bumpFrom n xs).length = xs.length := by
  induction xs generalizing n with
  | nil => cases n <;> rfl
  | cons x xs ih => cases n <;> simp [bumpFrom, ih]

theorem bumpFrom_getElem? (n : Nat) (xs : List Nat) (i : Nat) :
    (bumpFrom n xs)[i]? = (xs[i]?).map (fun x => if n ≤ i then x + 1 else x) := by
  induction xs generalizing n i with
  | nil => cases n <;> simp [bumpFrom]
  | cons x xs ih =>
    cases n with
    | zero =>
      cases i with
      | zero => simp [bumpFrom]
      | succ i => simpa [bumpFrom] using ih 0 i
    | succ n =>
      cases i with
      | zero => simp [bumpFrom]
      | succ i => simpa [bumpFrom] using ih n i

theorem bumpFrom_pairwise (n : Nat) (xs : List Nat) (h : xs.Pairwise (· ≤ ·)) :
    (bumpFrom n xs).Pairwise (· ≤ ·) := by
  rw [List.pairwise_iff_getElem] at h ⊢
  intro i j hi hj hij
  rw [bumpFrom_length] at hi hj
  have h1 := bumpFrom_getElem? n xs i
  have h2 := bumpFrom_getElem? n xs j
  rw [List.getElem?_eq_getElem (by rw [bumpFrom_length]; exact hi),
    List.getElem?_eq_getElem hi] at h1
  rw [List.getElem?_eq_getElem (by rw [bumpFrom_length]; exact hj),
    List.getElem?_eq_getElem hj] at h2
  simp only [Option.map_some', Option.some.injEq] at h1 h2
  rw [h1, h2]
  have := h i j hi hj hij
  split <;> split <;> omega

/-! ## The loops of the CSR operators -/

theorem SparseMatrixCSR.getLoop_eq_lookup {α : Type} [Zero α] (columns : List Nat)
    (values : List α) (col : Nat) (hlen : columns.length = values.length) :
    ∀ n k, k + n ≤ columns.length →
      SparseMatrixCSR.getLoop columns values col n k =
        .ret (((((columns.zip values).drop k).take n).lookup col).getD 0) := by
  intro n
  induction n with
  | zero => intro k _; simp [SparseMatrixCSR.getLoop]
  | succ n ih =>
    intro k hk
    have hkc : k < columns.length := by omega
    have hkv : k < values.length := by omega
    have hkz : k < (columns.zip values).length := by simp; omega
    rw [SparseMatrixCSR.getLoop, List.getElem?_eq_getElem hkc, List.drop_eq_getElem_cons hkz]
    simp only [List.take_succ_cons, List.getElem_zip, List.lookup_cons]
    by_cases hc : columns[k] = col
    · subst hc
      simp [List.getElem?_eq_getElem hkv]
    · have hc2 : (col == columns[k]) = false := by
        simp only [beq_eq_false_iff_ne, ne_eq]
        exact fun h => hc h.symm
      simp only [hc, if_false, hc2]
      exact ih (k + 1) (by omega)

theorem SparseMatrixCSR.checkLoop_eq (columns : List Nat) (col : Nat) :
    ∀ n k, k + n ≤ columns.length →
      SparseMatrixCSR.checkLoop columns col n k =
        if col ∈ (columns.drop k).take n then .throw (.out_of_range msgOccupied)
        else .ret () := by
  intro n
  induction n with
  | zero => intro k _; simp [SparseMatrixCSR.checkLoop]
  | succ n ih =>
    intro k hk
    have hkc : k < columns.length := by omega
    rw [SparseMatrixCSR.checkLoop, List.getElem?_eq_getElem hkc, List.drop_eq_getElem_cons hkc]
    simp only [List.take_succ_cons, List.mem_cons]
    by_cases hc : columns[k] = col
    · simp [hc]
    · have hc2 : ¬ col = columns[k] := fun h => hc h.symm
      simp only [hc, if_false, hc2, false_or]
      exact ih (k + 1) (by omega)

/-! ## Consequences of the row-pointer invariant -/

theorem SparseMatrixCSR.Inv.bounds {α : Type} {m : SparseMatrixCSR α} (h : m.Inv) {r r' : Nat}
    (hrr : r ≤ r') (hr : r' ≤ m.num_rows) :
    ∃ s e, m.row_idx[r]? = some s ∧ m.row_idx[r']? = some e ∧ s ≤ e ∧ e ≤ m.values.length := by
  obtain ⟨hlen, _, hmono, _, hlast⟩ := h
  have h1 : r < m.row_idx.length := by omega
  have h2 : r' < m.row_idx.length := by omega
  have h3 : m.num_rows < m.row_idx.length := by omega
  refine ⟨m.row_idx[r], m.row_idx[r'], List.getElem?_eq_getElem h1,
    List.getElem?_eq_getElem h2, ?_, ?_⟩
  · rcases Nat.eq_or_lt_of_le hrr with heq | hlt
    · subst heq; exact Nat.le_refl _
    · exact (List.pairwise_iff_getElem.mp hmono) r r' h1 h2 hlt
  · rw [List.getElem?_eq_getElem h3, SparseMatrixCSR.get_nnz] at hlast
    have hl : m.row_idx[m.num_rows] = m.values.length := by simpa using hlast
    rcases Nat.eq_or_lt_of_le hr with heq | hlt
    · subst heq; omega
    · have := (List.pairwise_iff_getElem.mp hmono) r' m.num_rows h2 h3 hlt
      omega

theorem SparseMatrixCSR.rowSlice_eq {α : Type} (m : SparseMatrixCSR α) (r s e : Nat)
    (hs : m.row_idx[r]? = some s) (he : m.row_idx[r + 1]? = some e) :
    m.rowSlice r = ((m.columns.zip m.values).drop s).take (e - s) := by
  simp [SparseMatrixCSR.rowSlice, hs, he, List.drop_take]

theorem SparseMatrixCSR.rowCols_eq {α : Type} (m : SparseMatrixCSR α) (r s e : Nat)
    (hlen : m.columns.length = m.values.length)
    (hs : m.row_idx[r]? = some s) (he : m.row_idx[r + 1]? = some e) :
    m.rowCols r = (m.columns.drop s).take (e - s) := by
  rw [SparseMatrixCSR.rowCols, m.rowSlice_eq r s e hs he, List.map_take, List.map_drop,
    List.map_fst_zip _ _ (by omega)]

/-- An in-range read of a store satisfying the invariant looks `col` up in the slice of
`row`, and yields `0` when the slice has no such column. -/
theorem SparseMatrixCSR.get_eq_lookup {α : Type} [Zero α] {m : SparseMatrixCSR α} (h : m.Inv)
    {row col : Nat} (hr : row < m.num_rows) (hc : col < m.num_cols) :
    m.get row col = .ret (((m.rowSlice row).lookup col).getD 0) := by
  obtain ⟨s, e, hs, he, hse, hel⟩ := h.bounds (Nat.le_succ row) hr
  have hlen := h.2.2.2.1
  have hnot : ¬ (row ≥ m.num_rows ∨ col ≥ m.num_cols) := by omega
  rw [m.rowSlice_eq row s e hs he]
  simp only [SparseMatrixCSR.get, hnot, if_false, hs, he]
  exact SparseMatrixCSR.getLoop_eq_lookup _ _ _ hlen _ _ (by omega)

theorem SparseMatrixCSR.slot_fresh {α : Type} [Zero α] {m : SparseMatrixCSR α} (h : m.Inv)
    {row col : Nat} (hr : row < m.num_rows) (hc : col < m.num_cols)
    (hfresh : col ∉ m.rowCols row) :
    m.slot row col = (.ret (m.row_idx[row + 1]?.getD 0), m.inserted row col 0) := by
  obtain ⟨s, e, hs, he, hse, hel⟩ := h.bounds (Nat.le_succ row) hr
  have hlen := h.2.2.2.1
  have hnot : ¬ (row ≥ m.num_rows ∨ col ≥ m.num_cols) := by omega
  rw [m.rowCols_eq row s e hlen hs he] at hfresh
  have hck := SparseMatrixCSR.checkLoop_eq m.columns col (e - s) s (by omega)
  rw [if_neg hfresh] at hck
  have hv1 : vecInsert m.columns e col = some (m.columns.take e ++ col :: m.columns.drop e) := by
    simp only [vecInsert]; rw [if_pos (by omega)]
  have hv2 : vecInsert m.values e (0 : α) = some (m.values.take e ++ 0 :: m.values.drop e) := by
    simp only [vecInsert]; rw [if_pos (by omega)]
  simp only [SparseMatrixCSR.slot, hnot, if_false, hs, he, hck, hv1, hv2,
    SparseMatrixCSR.inserted, Option.getD_some]

theorem SparseMatrixCSR.slot_occupied {α : Type} [Zero α] {m : SparseMatrixCSR α} (h : m.Inv)
    {row col : Nat} (hr : row < m.num_rows) (hc : col < m.num_cols)
    (hocc : col ∈ m.rowCols row) :
    m.slot row col = (.throw (.out_of_range msgOccupied), m) := by
  obtain ⟨s, e, hs, he, hse, hel⟩ := h.bounds (Nat.le_succ row) hr
  have hlen := h.2.2.2.1
  have hnot : ¬ (row ≥ m.num_rows ∨ col ≥ m.num_cols) := by omega
  rw [m.rowCols_eq row s e hlen hs he] at hocc
  have hck := SparseMatrixCSR.checkLoop_eq m.columns col (e - s) s (by omega)
  rw [if_pos hocc] at hck
  simp only [SparseMatrixCSR.slot, hnot, if_false, hs, he, hck]

theorem SparseMatrixCSR.set_fresh {α : Type} [Zero α] {m : SparseMatrixCSR α} (h : m.Inv)
    {row col : Nat} (value : α) (hr : row < m.num_rows) (hc : col < m.num_cols)
    (hfresh : col ∉ m.rowCols row) :
    m.set row col value = (.ret (), m.inserted row col value) := by
  obtain ⟨s, e, hs, he, hse, hel⟩ := h.bounds (Nat.le_succ row) hr
  simp only [SparseMatrixCSR.set, SparseMatrixCSR.slot_fresh h hr hc hfresh,
    SparseMatrixCSR.inserted, he, Option.getD_some]
  rw [set_insert _ _ _ _ hel]

theorem SparseMatrixCSR.set_occupied {α : Type} [Zero α] {m : SparseMatrixCSR α} (h : m.Inv)
    {row col : Nat} (value : α) (hr : row < m.num_rows) (hc : col < m.num_cols)
    (hocc : col ∈ m.rowCols row) :
    m.set row col value = (.throw (.out_of_range msgOccupied), m) := by
  simp only [SparseMatrixCSR.set, SparseMatrixCSR.slot_occupied h hr hc hocc]

theorem SparseMatrixCSR.set_out_of_range {α : Type} [Zero α] (m : SparseMatrixCSR α)
    {row col : Nat} (value : α) (hout : row ≥ m.num_rows ∨ col ≥ m.num_cols) :
    m.set row col value = (.throw (.out_of_range msgRange), m) := by
  simp only [SparseMatrixCSR.set, SparseMatrixCSR.slot, hout, if_true]

theorem SparseMatrixCSR.inserted_inv {α : Type} {m : SparseMatrixCSR α} (h : m.Inv)
    {row : Nat} (col : Nat) (value : α) (hr : row < m.num_rows) :
    (m.inserted row col value).Inv := by
  obtain ⟨p, e, hp, he, hpe, hel⟩ := 
    SparseMatrixCSR.Inv.bounds (r := row + 1) h hr (Nat.le_refl m.num_rows)
  obtain ⟨hlen, hzero, hmono, hcv, hlast⟩ := h
  have hpl : p ≤ m.values.length := by omega
  refine ⟨?_, ?_, ?_, ?_, ?_⟩
  · simp [SparseMatrixCSR.inserted, bumpFrom_length, hlen]
  · simp [SparseMatrixCSR.inserted, bumpFrom_getElem?, hzero]
  · exact bumpFrom_pairwise _ _ hmono
  · simp [SparseMatrixCSR.inserted, hcv]
  · have hrow : row + 1 ≤ m.num_rows := hr
    simp only [SparseMatrixCSR.get_nnz] at hlast
    simp only [SparseMatrixCSR.inserted, SparseMatrixCSR.get_nnz, bumpFrom_getElem?, hlast,
      Option.map_some', hrow, if_true, hp, Option.getD_some, List.length_append,
      List.length_take, List.length_cons, List.length_drop, Option.some.injEq]
    omega

theorem SparseMatrixCSR.rowSlice_inserted {α : Type} {m : SparseMatrixCSR α} (h : m.Inv)
    {row : Nat} (col : Nat) (value : α) (hr : row < m.num_rows) {r : Nat}
    (hrn : r < m.num_rows) :
    (m.inserted row col value).rowSlice r =
      if r = row then m.rowSlice r ++ [(col, value)] else m.rowSlice r := by
  obtain ⟨s0, p, hs0, hp, hsp, hpl⟩ := h.bounds (Nat.le_succ row) hr
  obtain ⟨s, e, hs, he, hse, hel⟩ := h.bounds (Nat.le_succ r) hrn
  have hcv := h.2.2.2.1
  have hpz : p ≤ (m.columns.zip m.values).length := by simp; omega
  have hz : (m.inserted row col value).columns.zip (m.inserted row col value).values =
      (m.columns.zip m.values).take p ++ (col, value) :: (m.columns.zip m.values).drop p := by
    simp only [SparseMatrixCSR.inserted, hp, Option.getD_some]
    exact zip_insert _ _ _ _ _ hcv
  have hs' : (m.inserted row col value).row_idx[r]?.getD 0 = if row + 1 ≤ r then s + 1 else s := by
    simp only [SparseMatrixCSR.inserted, bumpFrom_getElem?, hs, Option.map_some',
      Option.getD_some]
  have he' : (m.inserted row col value).row_idx[r + 1]?.getD 0 =
      if row + 1 ≤ r + 1 then e + 1 else e := by
    simp only [SparseMatrixCSR.inserted, bumpFrom_getElem?, he, Option.map_some',
      Option.getD_some]
  have hold : m.rowSlice r = ((m.columns.zip m.values).take e).drop s := by
    simp [SparseMatrixCSR.rowSlice, hs, he]
  rw [hold]
  simp only [SparseMatrixCSR.rowSlice, hz, hs', he']
  rcases Nat.lt_trichotomy r row with hlt | heq | hgt
  · have h1 : ¬ row + 1 ≤ r := by omega
    have h2 : ¬ row + 1 ≤ r + 1 := by omega
    have h3 : ¬ r = row := by omega
    obtain ⟨e2, s2, he2, hs2, hes, _⟩ := 
      SparseMatrixCSR.Inv.bounds (r := r + 1) h hlt (Nat.le_of_lt hr)
    have hee : e2 = e := by rw [he] at he2; exact (Option.some.inj he2).symm
    have hss : s2 = s0 := by rw [hs0] at hs2; exact (Option.some.inj hs2).symm
    simp only [h1, h2, h3, if_false]
    exact slice_insert_below _ _ _ _ _ (by omega) hpz
  · subst heq
    have hee : e = p := by rw [hp] at he; exact (Option.some.inj he).symm
    have h1 : ¬ r + 1 ≤ r := by omega
    subst hee
    simp only [h1, Nat.le_refl, if_true, if_false]
    exact slice_insert_end _ _ _ _ hse hpz
  · have h1 : row + 1 ≤ r := hgt
    have h2 : row + 1 ≤ r + 1 := by omega
    have h3 : ¬ r = row := by omega
    obtain ⟨p2, s2, hp2, hs2, hps, _⟩ := 
      SparseMatrixCSR.Inv.bounds (r := row + 1) h hgt (Nat.le_of_lt hrn)
    have hpp : p2 = p := by rw [hp] at hp2; exact (Option.some.inj hp2).symm
    have hss : s2 = s := by rw [hs] at hs2; exact (Option.some.inj hs2).symm
    simp only [h1, h2, h3, if_true, if_false]
    exact slice_insert_above _ _ _ _ _ (by omega) hpz

theorem SparseMatrixCSR.construct_inv {α : Type} (rows cols : Nat) :
    (SparseMatrixCSR.construct rows cols : SparseMatrixCSR α).Inv := by
  refine ⟨by simp [SparseMatrixCSR.construct], by simp [SparseMatrixCSR.construct],
    ?_, by simp [SparseMatrixCSR.construct], ?_⟩
  · simp only [SparseMatrixCSR.construct]
    rw [List.pairwise_iff_getElem]
    intro i j hi hj _
    simp
  · simp [SparseMatrixCSR.construct, SparseMatrixCSR.get_nnz, List.getElem?_replicate]

theorem SparseMatrixCSR.construct_rowSlice {α : Type} (rows cols r : Nat) :
    (SparseMatrixCSR.construct rows cols : SparseMatrixCSR α).rowSlice r = [] := by
  simp [SparseMatrixCSR.construct, SparseMatrixCSR.rowSlice]

/-! ## Sequences of sets on a CSR store -/

theorem entriesOf_cons {α : Type} (o : Nat × Nat × α) (ops : List (Nat × Nat × α)) (r : Nat) :
    entriesOf (o :: ops) r =
      (if o.1 = r then [(o.2.1, o.2.2)] else []) ++ entriesOf ops r := by
  by_cases h : o.1 = r <;> simp [entriesOf, List.filter_cons, h]

theorem SparseMatrixCSR.setAll_spec {α : Type} [Zero α] (ops : List (Nat × Nat × α)) :
    ∀ m : SparseMatrixCSR α, m.Inv →
      (∀ o ∈ ops, o.1 < m.num_rows ∧ o.2.1 < m.num_cols) →
      (positions ops).Nodup →
      (∀ o ∈ ops, o.2.1 ∉ m.rowCols o.1) →
      ∃ m1, m.setAll ops = (.ret (), m1) ∧ m1.Inv ∧ m1.num_rows = m.num_rows ∧
        m1.num_cols = m.num_cols ∧
        ∀ r, r < m.num_rows → m1.rowSlice r = m.rowSlice r ++ entriesOf ops r := by
  induction ops with
  | nil =>
    intro m h _ _ _
    exact ⟨m, rfl, h, rfl, rfl, fun r _ => by simp [entriesOf]⟩
  | cons o ops ih =>
    intro m h hin hnd hfresh
    obtain ⟨row, col, value⟩ := o
    have hrc := hin _ (List.mem_cons_self _ _)
    simp only at hrc
    have hf := hfresh _ (List.mem_cons_self _ _)
    simp only at hf
    have hset := SparseMatrixCSR.set_fresh h value hrc.1 hrc.2 hf
    have hinv := SparseMatrixCSR.inserted_inv h col value hrc.1
    simp only [positions, List.map_cons, List.nodup_cons] at hnd
    have hfresh1 : ∀ o ∈ ops, o.2.1 ∉ (m.inserted row col value).rowCols o.1 := by
      intro o ho hmem
      have ho1 := (hin o (List.mem_cons_of_mem _ ho)).1
      rw [SparseMatrixCSR.rowCols, SparseMatrixCSR.rowSlice_inserted h col value hrc.1 ho1]
        at hmem
      by_cases heq : o.1 = row
      · simp only [heq, if_true, List.map_append, List.map_cons, List.map_nil,
          List.mem_append, List.mem_singleton] at hmem
        rcases hmem with hm | hm
        · apply hfresh o (List.mem_cons_of_mem _ ho)
          rw [SparseMatrixCSR.rowCols, heq]
          exact hm
        · apply hnd.1
          exact List.mem_map.mpr ⟨o, ho, by rw [heq, hm]⟩
      · simp only [heq, if_false] at hmem
        exact hfresh o (List.mem_cons_of_mem _ ho) hmem
    obtain ⟨m1, hrun, hinv1, hnr, hnc, hsl⟩ := ih (m.inserted row col value) hinv
      (fun o ho => hin o (List.mem_cons_of_mem _ ho)) hnd.2 hfresh1
    refine ⟨m1, ?_, hinv1, hnr, hnc, ?_⟩
    · simp only [SparseMatrixCSR.setAll, hset]
      exact hrun
    · intro r hr
      have hnr1 : (m.inserted row col value).num_rows = m.num_rows := rfl
      rw [hsl r (by rw [hnr1]; exact hr),
        SparseMatrixCSR.rowSlice_inserted h col value hrc.1 hr, entriesOf_cons]
      by_cases heq : r = row
      · subst heq; simp
      · have heq2 : ¬ row = r := fun h => heq h.symm
        simp [heq, heq2]

theorem SparseMatrixCSR.setAll_construct {α : Type} [Zero α] (rows cols : Nat)
    (ops : List (Nat × Nat × α)) (hin : ∀ o ∈ ops, o.1 < rows ∧ o.2.1 < cols)
    (hdist : (positions ops).Nodup) :
    ∃ m1, (SparseMatrixCSR.construct rows cols : SparseMatrixCSR α).setAll ops = (.ret (), m1) ∧
      m1.Inv ∧ m1.num_rows = rows ∧ m1.num_cols = cols ∧
      ∀ r, r < rows → m1.rowSlice r = entriesOf ops r := by
  obtain ⟨m1, h1, h2, h3, h4, h5⟩ := SparseMatrixCSR.setAll_spec ops
    (SparseMatrixCSR.construct rows cols) (SparseMatrixCSR.construct_inv rows cols) hin hdist
    (by intro o _; simp [SparseMatrixCSR.rowCols, SparseMatrixCSR.construct_rowSlice])
  refine ⟨m1, h1, h2, h3, h4, ?_⟩
  intro r hr
  rw [h5 r hr, SparseMatrixCSR.construct_rowSlice, List.nil_append]

theorem lookup_entriesOf_of_mem {α : Type} (ops : List (Nat × Nat × α))
    (hdist : (positions ops).Nodup) (row col : Nat) (v : α) (hmem : (row, col, v) ∈ ops) :
    (entriesOf ops row).lookup col = some v := by
  induction ops with
  | nil => simp at hmem
  | cons o ops ih =>
    obtain ⟨r, c, w⟩ := o
    simp only [positions, List.map_cons, List.nodup_cons] at hdist
    rw [entriesOf_cons]
    rcases List.mem_cons.mp hmem with heq | htail
    · simp only [Prod.mk.injEq] at heq
      obtain ⟨h1, h2, h3⟩ := heq
      subst h1 h2 h3
      simp [List.lookup_cons]
    · have hne : ¬ (r = row ∧ c = col) := by
        rintro ⟨h1, h2⟩
        subst h1 h2
        exact hdist.1 (List.mem_map.mpr ⟨_, htail, rfl⟩)
      by_cases hr : r = row
      · have hc : (col == c) = false := by
          simp only [beq_eq_false_iff_ne, ne_eq]
          exact fun h => hne ⟨hr, h.symm⟩
        simp only [hr, if_true, List.singleton_append, List.lookup_cons, hc]
        exact ih hdist.2 htail
      · simp only [hr, if_false, List.nil_append]
        exact ih hdist.2 htail

theorem lookup_entriesOf_of_not_mem {α : Type} (ops : List (Nat × Nat × α)) (row col : Nat)
    (hnot : ∀ v, (row, col, v) ∉ ops) : (entriesOf ops row).lookup col = none := by
  induction ops with
  | nil => simp [entriesOf]
  | cons o ops ih =>
    obtain ⟨r, c, w⟩ := o
    rw [entriesOf_cons]
    have htail : ∀ v, (row, col, v) ∉ ops := fun v hv => hnot v (List.mem_cons_of_mem _ hv)
    by_cases hr : r = row
    · have hc : (col == c) = false := by
        simp only [beq_eq_false_iff_ne, ne_eq]
        intro h
        apply hnot w
        rw [hr, h]
        exact List.mem_cons_self _ _
      simp only [hr, if_true, List.singleton_append, List.lookup_cons, hc]
      exact ih htail
    · simp only [hr, if_false, List.nil_append]
      exact ih htail

theorem SparseMatrixCSR.take_eq_flatten_rowSlice {α : Type} {m : SparseMatrixCSR α} (h : m.Inv) :
    ∀ k, k ≤ m.num_rows →
      (m.columns.zip m.values).take (m.row_idx[k]?.getD 0) =
        ((List.range k).map m.rowSlice).flatten := by
  intro k
  induction k with
  | zero => intro _; simp [h.2.1]
  | succ k ih =>
    intro hk
    obtain ⟨s, e, hs, he, hse, _⟩ := h.bounds (Nat.le_succ k) hk
    have ih1 := ih (by omega)
    rw [hs, Option.getD_some] at ih1
    rw [List.range_succ, List.map_append, List.flatten_append, ← ih1, he, Option.getD_some]
    simp only [List.map_cons, List.map_nil, List.flatten_cons, List.flatten_nil,
      List.append_nil, SparseMatrixCSR.rowSlice, hs, he, Option.getD_some]
    have h1 : (m.columns.zip m.values).take s = ((m.columns.zip m.values).take e).take s := by
      rw [List.take_take, Nat.min_eq_left hse]
    rw [h1, List.take_append_drop]

/-- The vector `columns` of a store satisfying the invariant is the concatenation of the
row slices in increasing row order. -/
theorem SparseMatrixCSR.columns_eq_flatten_rowCols {α : Type} {m : SparseMatrixCSR α}
    (h : m.Inv) : m.columns = ((List.range m.num_rows).map m.rowCols).flatten := by
  have h1 := SparseMatrixCSR.take_eq_flatten_rowSlice h m.num_rows (Nat.le_refl _)
  have hlast := h.2.2.2.2
  have hcv := h.2.2.2.1
  rw [hlast, Option.getD_some, SparseMatrixCSR.get_nnz,
    List.take_of_length_le (by simp [hcv])] at h1
  have h2 := congrArg (List.map Prod.fst) h1
  rw [List.map_fst_zip _ _ (by omega), List.map_flatten, List.map_map] at h2
  rw [h2]
  rfl

/-! ## Claims on the CSR store -/

/-- C1. A CSR store built from the empty `rows x cols` store by sets at pairwise distinct
in-range positions: every set returns, and for every in-range `(row, col)` the read operator
returns the value set there when the position was set, and `0` when it was not. -/
theorem csr_get_agrees_with_reference {α : Type} [Zero α] (rows cols : Nat)
    (ops : List (Nat × Nat × α)) (hin : ∀ o ∈ ops, o.1 < rows ∧ o.2.1 < cols)
    (hdist : (positions ops).Nodup) (row col : Nat) (hr : row < rows) (hc : col < cols) :
    ∃ m, (SparseMatrixCSR.construct rows cols : SparseMatrixCSR α).setAll ops = (.ret (), m) ∧
      (∀ v, (row, col, v) ∈ ops → m.get row col = .ret v) ∧
      ((∀ v, (row, col, v) ∉ ops) → m.get row col = .ret 0) := by
  obtain ⟨m, hrun, hinv, hnr, hnc, hsl⟩ := SparseMatrixCSR.setAll_construct rows cols ops hin hdist
  have hr1 : row < m.num_rows := by rw [hnr]; exact hr
  have hc1 : col < m.num_cols := by rw [hnc]; exact hc
  have hget := SparseMatrixCSR.get_eq_lookup hinv hr1 hc1
  rw [hsl row hr] at hget
  refine ⟨m, hrun, ?_, ?_⟩
  · intro v hv
    rw [hget, lookup_entriesOf_of_mem ops hdist row col v hv]
    rfl
  · intro hnot
    rw [hget, lookup_entriesOf_of_not_mem ops row col hnot]
    rfl

/-- Witness for C1: four sets on a 3 x 3 store in mixed row order, read back at `(0, 1)`. -/
theorem csr_get_agrees_with_reference_witness :
    (∀ o ∈ [(1, 2, (7 : Int)), (0, 2, 5), (0, 1, 4), (2, 0, 9)], o.1 < 3 ∧ o.2.1 < 3) ∧
    (positions [(1, 2, (7 : Int)), (0, 2, 5), (0, 1, 4), (2, 0, 9)]).Nodup ∧
    ∃ m, (SparseMatrixCSR.construct 3 3 : SparseMatrixCSR Int).setAll
        [(1, 2, 7), (0, 2, 5), (0, 1, 4), (2, 0, 9)] = (.ret (), m) ∧
      (∀ v, (0, 1, v) ∈ [(1, 2, (7 : Int)), (0, 2, 5), (0, 1, 4), (2, 0, 9)] →
        m.get 0 1 = .ret v) ∧
      ((∀ v, (0, 1, v) ∉ [(1, 2, (7 : Int)), (0, 2, 5), (0, 1, 4), (2, 0, 9)]) →
        m.get 0 1 = .ret 0) :=
  ⟨by decide, by decide,
    csr_get_agrees_with_reference 3 3 [(1, 2, 7), (0, 2, 5), (0, 1, 4), (2, 0, 9)]
      (by decide) (by decide) 0 1 (by decide) (by decide)⟩

/-- C2. The constructor establishes the row-pointer invariant (`row_idx` has `rows + 1`
entries, starts with `0`, is non-decreasing, `columns` and `values` have one length, and the
last entry of `row_idx` is `get_nnz()`), and every set, returning or throwing, preserves it. -/
theorem csr_row_pointer_invariant {α : Type} [Zero α] :
    (∀ rows cols : Nat, (SparseMatrixCSR.construct rows cols : SparseMatrixCSR α).Inv) ∧
    (∀ (m : SparseMatrixCSR α) (row col : Nat) (value : α),
      m.Inv → (m.set row col value).2.Inv) := by
  refine ⟨SparseMatrixCSR.construct_inv, ?_⟩
  intro m row col value h
  by_cases hout : row ≥ m.num_rows ∨ col ≥ m.num_cols
  · rw [SparseMatrixCSR.set_out_of_range m value hout]
    exact h
  · have hr : row < m.num_rows := by omega
    have hc : col < m.num_cols := by omega
    by_cases hocc : col ∈ m.rowCols row
    · rw [SparseMatrixCSR.set_occupied h value hr hc hocc]
      exact h
    · rw [SparseMatrixCSR.set_fresh h value hr hc hocc]
      exact SparseMatrixCSR.inserted_inv h col value hr

/-- Witness for C2: the invariant of the empty 3 x 3 store is carried through a returning
set, a set on the occupied position and a set outside the range. -/
theorem csr_row_pointer_invariant_witness :
    (SparseMatrixCSR.construct 3 3 : SparseMatrixCSR Int).Inv ∧
    ((SparseMatrixCSR.construct 3 3 : SparseMatrixCSR Int).set 1 2 7).2.Inv ∧
    ((((SparseMatrixCSR.construct 3 3 : SparseMatrixCSR Int).set 1 2 7).2.set 1 2 7).2).Inv ∧
    ((((SparseMatrixCSR.construct 3 3 : SparseMatrixCSR Int).set 1 2 7).2.set 5 5 7).2).Inv :=
  have h0 := csr_row_pointer_invariant.1 3 3
  have h1 := csr_row_pointer_invariant.2 (SparseMatrixCSR.construct 3 3) 1 2 (7 : Int) h0
  ⟨h0, h1, csr_row_pointer_invariant.2 _ 1 2 7 h1, csr_row_pointer_invariant.2 _ 5 5 7 h1⟩

/-- C3, the claim as stated fails: on a 3 x 3 store the sets `(0, 2)` then `(0, 1)` both
return and leave the columns `[2, 1]` in the slice of row `0`, which is not increasing. -/
theorem csr_row_columns_not_increasing :
    ((SparseMatrixCSR.construct 3 3 : SparseMatrixCSR Int).setAll
      [(0, 2, 5), (0, 1, 4)]).1 = .ret () ∧
    ((SparseMatrixCSR.construct 3 3 : SparseMatrixCSR Int).setAll
      [(0, 2, 5), (0, 1, 4)]).2.rowCols 0 = [2, 1] ∧
    ¬ (((SparseMatrixCSR.construct 3 3 : SparseMatrixCSR Int).setAll
      [(0, 2, 5), (0, 1, 4)]).2.rowCols 0).Pairwise (· < ·) := by
  decide

/-- C3 as amended. A CSR store built from empty by sets at pairwise distinct in-range
positions, given in any row and column order: every set returns; `columns` is the
concatenation of the row slices in increasing row order; the slice of each row `r` holds the
columns set in row `r` in the order of the sets, and so it is strictly increasing whenever
the sets of row `r` came in strictly increasing column order. -/
theorem csr_row_columns_in_set_order {α : Type} [Zero α] (rows cols : Nat)
    (ops : List (Nat × Nat × α)) (hin : ∀ o ∈ ops, o.1 < rows ∧ o.2.1 < cols)
    (hdist : (positions ops).Nodup) :
    ∃ m, (SparseMatrixCSR.construct rows cols : SparseMatrixCSR α).setAll ops = (.ret (), m) ∧
      m.columns = ((List.range rows).map m.rowCols).flatten ∧
      ∀ r, r < rows →
        m.rowCols r = ((ops.filter (fun o => decide (o.1 = r))).map (fun o => o.2.1)) ∧
        (((ops.filter (fun o => decide (o.1 = r))).map (fun o => o.2.1)).Pairwise (· < ·) →
          (m.rowCols r).Pairwise (· < ·)) := by
  obtain ⟨m, hrun, hinv, hnr, _, hsl⟩ := SparseMatrixCSR.setAll_construct rows cols ops hin hdist
  refine ⟨m, hrun, ?_, ?_⟩
  · have := SparseMatrixCSR.columns_eq_flatten_rowCols hinv
    rw [hnr] at this
    exact this
  · intro r hr
    have hcols : m.rowCols r =
        ((ops.filter (fun o => decide (o.1 = r))).map (fun o => o.2.1)) := by
      rw [SparseMatrixCSR.rowCols, hsl r hr, entriesOf, List.map_map]
      rfl
    exact ⟨hcols, fun hp => by rw [hcols]; exact hp⟩

/-- Witness for C3 as amended: sets in mixed row order on a 3 x 3 store. -/
theorem csr_row_columns_in_set_order_witness :
    (∀ o ∈ [(1, 2, (7 : Int)), (0, 2, 5), (0, 1, 4), (2, 0, 9)], o.1 < 3 ∧ o.2.1 < 3) ∧
    (positions [(1, 2, (7 : Int)), (0, 2, 5), (0, 1, 4), (2, 0, 9)]).Nodup ∧
    ∃ m, (SparseMatrixCSR.construct 3 3 : SparseMatrixCSR Int).setAll
        [(1, 2, 7), (0, 2, 5), (0, 1, 4), (2, 0, 9)] = (.ret (), m) ∧
      m.columns = ((List.range 3).map m.rowCols).flatten ∧
      ∀ r, r < 3 →
        m.rowCols r = (([(1, 2, (7 : Int)), (0, 2, 5), (0, 1, 4), (2, 0, 9)].filter
          (fun o => decide (o.1 = r))).map (fun o => o.2.1)) ∧
        ((([(1, 2, (7 : Int)), (0, 2, 5), (0, 1, 4), (2, 0, 9)].filter
          (fun o => decide (o.1 = r))).map (fun o => o.2.1)).Pairwise (· < ·) →
          (m.rowCols r).Pairwise (· < ·)) :=
  ⟨by decide, by decide,
    csr_row_columns_in_set_order 3 3 [(1, 2, 7), (0, 2, 5), (0, 1, 4), (2, 0, 9)]
      (by decide) (by decide)⟩

theorem SparseMatrixCSR.checkLoop_hit (columns : List Nat) (col : Nat) :
    ∀ d s n, columns[s + d]? = some col → d < n →
      SparseMatrixCSR.checkLoop columns col n s = .throw (.out_of_range msgOccupied) := by
  intro d
  induction d with
  | zero =>
    intro s n hk hn
    obtain ⟨n, rfl⟩ : ∃ n1, n = n1 + 1 := ⟨n - 1, by omega⟩
    simp only [Nat.add_zero] at hk
    simp [SparseMatrixCSR.checkLoop, hk]
  | succ d ih =>
    intro s n hk hn
    obtain ⟨n, rfl⟩ : ∃ n1, n = n1 + 1 := ⟨n - 1, by omega⟩
    have hlt : s + (d + 1) < columns.length := by
      by_contra hge
      rw [List.getElem?_eq_none (by omega)] at hk
      exact Option.noConfusion hk
    have hs : s < columns.length := by omega
    rw [SparseMatrixCSR.checkLoop, List.getElem?_eq_getElem hs]
    by_cases hc : columns[s] = col
    · simp [hc]
    · simp only [hc, if_false]
      exact ih (s + 1) n (by rw [← hk]; congr 1; omega) (by omega)

/-- C8. On a CSR store satisfying the row-pointer invariant the read operator throws the
out-of-range error exactly when `row >= rows` or `col >= cols`, and returns a value
otherwise; the write operator, and so the set, throws it whenever `row >= rows` or
`col >= cols`. -/
theorem csr_range_errors {α : Type} [Zero α] (m : SparseMatrixCSR α) (h : m.Inv)
    (row col : Nat) (value : α) :
    (m.get row col = .throw (.out_of_range msgRange) ↔
      (row ≥ m.num_rows ∨ col ≥ m.num_cols)) ∧
    ((row ≥ m.num_rows ∨ col ≥ m.num_cols) →
      (m.slot row col).1 = .throw (.out_of_range msgRange) ∧
      (m.set row col value).1 = .throw (.out_of_range msgRange)) ∧
    (row < m.num_rows → col < m.num_cols → ∃ v, m.get row col = .ret v) := by
  refine ⟨⟨?_, ?_⟩, ?_, ?_⟩
  · intro hget
    by_contra hin
    have hr : row < m.num_rows := by omega
    have hc : col < m.num_cols := by omega
    rw [SparseMatrixCSR.get_eq_lookup h hr hc] at hget
    exact Res.noConfusion hget
  · intro hout
    simp only [SparseMatrixCSR.get, hout, if_true]
  · intro hout
    refine ⟨?_, ?_⟩
    · simp only [SparseMatrixCSR.slot, hout, if_true]
    · rw [SparseMatrixCSR.set_out_of_range m value hout]
  · intro hr hc
    exact ⟨_, SparseMatrixCSR.get_eq_lookup h hr hc⟩

/-- Witness for C8: the 3 x 3 store holding `(1, 2, 7)`, asked at the boundary position
`(3, 0)`. -/
theorem csr_range_errors_witness :
    ((SparseMatrixCSR.construct 3 3 : SparseMatrixCSR Int).set 1 2 7).2.Inv ∧
    ((((SparseMatrixCSR.construct 3 3 : SparseMatrixCSR Int).set 1 2 7).2.get 3 0 =
        .throw (.out_of_range msgRange) ↔
      (3 ≥ ((SparseMatrixCSR.construct 3 3 : SparseMatrixCSR Int).set 1 2 7).2.num_rows ∨
        0 ≥ ((SparseMatrixCSR.construct 3 3 : SparseMatrixCSR Int).set 1 2 7).2.num_cols)) ∧
    ((3 ≥ ((SparseMatrixCSR.construct 3 3 : SparseMatrixCSR Int).set 1 2 7).2.num_rows ∨
        0 ≥ ((SparseMatrixCSR.construct 3 3 : SparseMatrixCSR Int).set 1 2 7).2.num_cols) →
      (((SparseMatrixCSR.construct 3 3 : SparseMatrixCSR Int).set 1 2 7).2.slot 3 0).1 =
        .throw (.out_of_range msgRange) ∧
      (((SparseMatrixCSR.construct 3 3 : SparseMatrixCSR Int).set 1 2 7).2.set 3 0 1).1 =
        .throw (.out_of_range msgRange)) ∧
    (3 < ((SparseMatrixCSR.construct 3 3 : SparseMatrixCSR Int).set 1 2 7).2.num_rows →
      0 < ((SparseMatrixCSR.construct 3 3 : SparseMatrixCSR Int).set 1 2 7).2.num_cols →
      ∃ v, ((SparseMatrixCSR.construct 3 3 : SparseMatrixCSR Int).set 1 2 7).2.get 3 0 =
        .ret v)) :=
  ⟨by decide, csr_range_errors _ (by decide) 3 0 1⟩

/-- C9, the claim as stated fails: on the 3 x 3 store that holds `(1, 2, 7)` the second
set at `(1, 2)` throws, but no exception of a class other than `std::out_of_range`, the
class of the range error. -/
theorem csr_duplicate_error_same_class :
    ¬ ∃ e, (((SparseMatrixCSR.construct 3 3 : SparseMatrixCSR Int).set 1 2 7).2.set 1 2 7).1 =
        .throw e ∧ e.kind ≠ (Exn.out_of_range msgRange).kind := by
  rintro ⟨e, he, hk⟩
  have h1 : (((SparseMatrixCSR.construct 3 3 : SparseMatrixCSR Int).set 1 2 7).2.set 1 2 7).1 =
      .throw (.out_of_range msgOccupied) := by decide
  rw [h1] at he
  have h2 : e = .out_of_range msgOccupied := by
    injection he with he
    exact he.symm
  subst h2
  exact hk rfl

/-- C9 as amended. A write or set at an in-range position whose row slice already holds the
column throws `std::out_of_range`, the class of the range error, told apart from it by the
text `There is already an entry in this position` only; the store after the call is the
store before it, so the read operator answers as before. -/
theorem csr_duplicate_set_rejected {α : Type} [Zero α] (m : SparseMatrixCSR α)
    (row col : Nat) (value : α) (hr : row < m.num_rows) (hc : col < m.num_cols)
    (hocc : m.holds row col) :
    m.slot row col = (.throw (.out_of_range msgOccupied), m) ∧
    m.set row col value = (.throw (.out_of_range msgOccupied), m) ∧
    (Exn.out_of_range msgOccupied).kind = (Exn.out_of_range msgRange).kind ∧
    Exn.out_of_range msgOccupied ≠ Exn.out_of_range msgRange ∧
    (m.set row col value).2.get row col = m.get row col := by
  obtain ⟨s, e, k, hs, he, hsk, hke, hk⟩ := hocc
  have hnot : ¬ (row ≥ m.num_rows ∨ col ≥ m.num_cols) := by omega
  have hck := SparseMatrixCSR.checkLoop_hit m.columns col (k - s) s (e - s)
    (by rw [← hk]; congr 1; omega) (by omega)
  have hslot : m.slot row col = (.throw (.out_of_range msgOccupied), m) := by
    simp only [SparseMatrixCSR.slot, hnot, if_false, hs, he, hck]
  have hset : m.set row col value = (.throw (.out_of_range msgOccupied), m) := by
    simp only [SparseMatrixCSR.set, hslot]
  refine ⟨hslot, hset, rfl, by decide, ?_⟩
  rw [hset]

/-- Witness for C9 as amended: `set(1, 2, 7)` twice on a 3 x 3 store; the second call throws
and the read at `(1, 2)` still returns `7`. -/
theorem csr_duplicate_set_rejected_witness :
    ((SparseMatrixCSR.construct 3 3 : SparseMatrixCSR Int).set 1 2 7).2.holds 1 2 ∧
    ((SparseMatrixCSR.construct 3 3 : SparseMatrixCSR Int).set 1 2 7).2.get 1 2 = .ret 7 ∧
    (((SparseMatrixCSR.construct 3 3 : SparseMatrixCSR Int).set 1 2 7).2.slot 1 2 =
        (.throw (.out_of_range msgOccupied),
          ((SparseMatrixCSR.construct 3 3 : SparseMatrixCSR Int).set 1 2 7).2) ∧
      ((SparseMatrixCSR.construct 3 3 : SparseMatrixCSR Int).set 1 2 7).2.set 1 2 7 =
        (.throw (.out_of_range msgOccupied),
          ((SparseMatrixCSR.construct 3 3 : SparseMatrixCSR Int).set 1 2 7).2) ∧
      (Exn.out_of_range msgOccupied).kind = (Exn.out_of_range msgRange).kind ∧
      Exn.out_of_range msgOccupied ≠ Exn.out_of_range msgRange ∧
      (((SparseMatrixCSR.construct 3 3 : SparseMatrixCSR Int).set 1 2 7).2.set 1 2 7).2.get
          1 2 =
        ((SparseMatrixCSR.construct 3 3 : SparseMatrixCSR Int).set 1 2 7).2.get 1 2) :=
  ⟨⟨0, 1, 0, by decide⟩, by decide,
    csr_duplicate_set_rejected
      ((SparseMatrixCSR.construct 3 3 : SparseMatrixCSR Int).set 1 2 7).2 1 2 7
      (by decide) (by decide) ⟨0, 1, 0, by decide⟩⟩

/-! ## The loops of the COO operators -/

theorem SparseMatrixCOO.scan_ne_throw (row : Nat) :
    ∀ (i : Nat) (rows : List Nat) (e : Exn), (SparseMatrixCOO.scan row i rows).1 ≠ .throw e := by
  intro i
  induction i with
  | zero => intro rows e h; simp [SparseMatrixCOO.scan] at h
  | succ i ih =>
    intro rows e
    rw [SparseMatrixCOO.scan]
    cases hr : rows[i]? with
    | none => intro h; simp at h
    | some r =>
      simp only
      by_cases hlt : r < row
      · simp only [hlt, if_true]
        exact ih _ e
      · simp only [hlt, if_false]
        intro h
        simp at h

/-- The read loop from index `i` either runs out, and then no index from `i` on matches, or
returns the value at the first matching index from `i` on. -/
theorem SparseMatrixCOO.getLoop_spec {α : Type} (m : SparseMatrixCOO α) (hwf : m.WF)
    (row col : Nat) :
    ∀ n i, i + n = m.values.length →
      (m.getLoop row col n i = .throw (.out_of_range msgNotFound) ∧
        ∀ j, i ≤ j → ¬ (m.rows[j]? = some row ∧ m.cols[j]? = some col)) ∨
      (∃ j v, i ≤ j ∧ m.rows[j]? = some row ∧ m.cols[j]? = some col ∧
        m.values[j]? = some v ∧
        (∀ j1, i ≤ j1 → j1 < j → ¬ (m.rows[j1]? = some row ∧ m.cols[j1]? = some col)) ∧
        m.getLoop row col n i = .ret v) := by
  intro n
  induction n with
  | zero =>
    intro i hi
    left
    refine ⟨rfl, ?_⟩
    intro j hj hmatch
    have hlen : m.rows.length ≤ j := by rw [hwf.1]; omega
    rw [List.getElem?_eq_none hlen] at hmatch
    exact Option.noConfusion hmatch.1
  | succ n ih =>
    intro i hi
    have hiv : i < m.values.length := by omega
    have hir : i < m.rows.length := by rw [hwf.1]; exact hiv
    have hic : i < m.cols.length := by rw [hwf.2]; exact hiv
    have hstep : ∀ (hne : ¬ (m.rows[i] = row ∧ m.cols[i] = col)),
        m.getLoop row col (n + 1) i = m.getLoop row col n (i + 1) := by
      intro hne
      rw [SparseMatrixCOO.getLoop, List.getElem?_eq_getElem hir]
      by_cases h1 : m.rows[i] = row
      · have h2 : ¬ m.cols[i] = col := fun h2 => hne ⟨h1, h2⟩
        simp [h1, List.getElem?_eq_getElem hic, h2]
      · simp [h1]
    by_cases hm : m.rows[i] = row ∧ m.cols[i] = col
    · right
      refine ⟨i, m.values[i], Nat.le_refl _, ?_, ?_, List.getElem?_eq_getElem hiv, ?_, ?_⟩
      · rw [List.getElem?_eq_getElem hir, hm.1]
      · rw [List.getElem?_eq_getElem hic, hm.2]
      · intro j1 h1 h2; omega
      · rw [SparseMatrixCOO.getLoop, List.getElem?_eq_getElem hir]
        simp [hm.1, hm.2, List.getElem?_eq_getElem hic, List.getElem?_eq_getElem hiv]
    · have hnoti : ¬ (m.rows[i]? = some row ∧ m.cols[i]? = some col) := by
        rw [List.getElem?_eq_getElem hir, List.getElem?_eq_getElem hic]
        simpa using hm
      rcases ih (i + 1) (by omega) with ⟨hthrow, hnone⟩ | ⟨j, v, hj, hr, hc, hv, hfirst, hret⟩
      · left
        refine ⟨by rw [hstep hm]; exact hthrow, ?_⟩
        intro j hj
        rcases Nat.eq_or_lt_of_le hj with heq | hlt
        · subst heq; exact hnoti
        · exact hnone j hlt
      · right
        refine ⟨j, v, by omega, hr, hc, hv, ?_, by rw [hstep hm]; exact hret⟩
        intro j1 h1 h2
        rcases Nat.eq_or_lt_of_le h1 with heq | hlt
        · subst heq; exact hnoti
        · exact hfirst j1 hlt h2

/-! ## Claims on the COO store -/

/-- C4 at a failing input: on the 3 x 3 store holding `(2, 0, 5)` the write at `(2, 3)`,
whose column equals `cols`, is not rejected; it returns and appends the entry. -/
theorem coo_set_accepts_boundary_column :
    (⟨[5], [2], [0], 3, 3⟩ : SparseMatrixCOO Int).set 2 3 1 =
      (.ret (), ⟨[5, 1], [2, 2], [0, 3], 3, 3⟩) ∧
    ((SparseMatrixCOO.construct 3 3 : SparseMatrixCOO Int).set 3 3 1).1 ≠
      .throw (.out_of_range msgRange) := by
  decide

/-- C5 at a failing input: two writes at `(1, 1)` on the empty 3 x 3 store leave two stored
entries with the position `(1, 1)`, and `get_nnz()` goes from 1 to 2 on the second. -/
theorem coo_set_duplicates_position :
    ((SparseMatrixCOO.construct 3 3 : SparseMatrixCOO Int).set 1 1 5).2 =
      ⟨[5], [1], [1], 3, 3⟩ ∧
    (⟨[5], [1], [1], 3, 3⟩ : SparseMatrixCOO Int).set 1 1 7 =
      (.ret (), ⟨[5, 7], [1, 1], [1, 1], 3, 3⟩) ∧
    (⟨[5, 7], [1, 1], [1, 1], 3, 3⟩ : SparseMatrixCOO Int).get_nnz = 2 := by
  decide

/-- C6 at a failing input: on the 3 x 3 store holding `(1, 1, 5)` the write of `7` at
`(1, 1)` returns, and the read at `(1, 1)` afterwards returns `5`. -/
theorem coo_get_after_set_returns_old_value :
    ((⟨[5], [1], [1], 3, 3⟩ : SparseMatrixCOO Int).set 1 1 7).1 = .ret () ∧
    ((⟨[5], [1], [1], 3, 3⟩ : SparseMatrixCOO Int).set 1 1 7).2.get 1 1 = .ret 5 := by
  decide

/-- C7. On a COO store whose three vectors have one length, the read operator throws the
not-found error exactly when no stored index carries `(row, col)`; otherwise it returns the
value stored at an index that carries `(row, col)`. -/
theorem coo_get_not_found_iff {α : Type} (m : SparseMatrixCOO α) (hwf : m.WF) (row col : Nat) :
    (m.get row col = .throw (.out_of_range msgNotFound) ↔
      ¬ ∃ i : Nat, m.rows[i]? = some row ∧ m.cols[i]? = some col) ∧
    ((∃ i : Nat, m.rows[i]? = some row ∧ m.cols[i]? = some col) →
      ∃ (i : Nat) (v : α), m.rows[i]? = some row ∧ m.cols[i]? = some col ∧
        m.values[i]? = some v ∧ m.get row col = .ret v) := by
  have hspec := SparseMatrixCOO.getLoop_spec m hwf row col m.values.length 0 (by omega)
  rcases hspec with ⟨hthrow, hnone⟩ | ⟨j, v, _, hr, hc, hv, _, hret⟩
  · refine ⟨⟨fun _ => ?_, fun _ => hthrow⟩, ?_⟩
    · rintro ⟨i, hi⟩
      exact hnone i (Nat.zero_le _) hi
    · rintro ⟨i, hi⟩
      exact absurd hi (hnone i (Nat.zero_le _))
  · refine ⟨⟨fun h => ?_, fun h => absurd ⟨j, hr, hc⟩ h⟩, fun _ => ⟨j, v, hr, hc, hv, hret⟩⟩
    rw [SparseMatrixCOO.get, hret] at h
    exact Res.noConfusion h

/-- Witness for C7: the store with entries `(0, 1, 4)` and `(2, 2, 9)`, read at `(2, 2)`. -/
theorem coo_get_not_found_iff_witness :
    (⟨[4, 9], [0, 2], [1, 2], 3, 3⟩ : SparseMatrixCOO Int).WF ∧
    (((⟨[4, 9], [0, 2], [1, 2], 3, 3⟩ : SparseMatrixCOO Int).get 2 2 =
        .throw (.out_of_range msgNotFound) ↔
      ¬ ∃ i : Nat, (⟨[4, 9], [0, 2], [1, 2], 3, 3⟩ : SparseMatrixCOO Int).rows[i]? = some 2 ∧
        (⟨[4, 9], [0, 2], [1, 2], 3, 3⟩ : SparseMatrixCOO Int).cols[i]? = some 2) ∧
    ((∃ i : Nat, (⟨[4, 9], [0, 2], [1, 2], 3, 3⟩ : SparseMatrixCOO Int).rows[i]? = some 2 ∧
        (⟨[4, 9], [0, 2], [1, 2], 3, 3⟩ : SparseMatrixCOO Int).cols[i]? = some 2) →
      ∃ (i : Nat) (v : Int),
        (⟨[4, 9], [0, 2], [1, 2], 3, 3⟩ : SparseMatrixCOO Int).rows[i]? = some 2 ∧
        (⟨[4, 9], [0, 2], [1, 2], 3, 3⟩ : SparseMatrixCOO Int).cols[i]? = some 2 ∧
        (⟨[4, 9], [0, 2], [1, 2], 3, 3⟩ : SparseMatrixCOO Int).values[i]? = some v ∧
        (⟨[4, 9], [0, 2], [1, 2], 3, 3⟩ : SparseMatrixCOO Int).get 2 2 = .ret v)) :=
  ⟨by decide, coo_get_not_found_iff _ (by decide) 2 2⟩

/-- C10. A COO write that throws the out-of-range error leaves the object as it was: the
vectors `rows`, `cols`, `values` and `get_nnz()` are those before the call. -/
theorem coo_failed_set_changes_nothing {α : Type} (m : SparseMatrixCOO α) (row col : Nat)
    (value : α) (hfail : (m.set row col value).1 = .throw (.out_of_range msgRange)) :
    (m.set row col value).2 = m ∧
    (m.set row col value).2.rows = m.rows ∧ (m.set row col value).2.cols = m.cols ∧
    (m.set row col value).2.values = m.values ∧
    (m.set row col value).2.get_nnz = m.get_nnz := by
  have hsame : (m.set row col value).2 = m := by
    by_cases hout : row > m.num_rows ∨ col > m.num_cols
    · simp only [SparseMatrixCOO.set, hout, if_true]
    · simp only [SparseMatrixCOO.set, hout, if_false] at hfail
      exact absurd hfail (SparseMatrixCOO.scan_ne_throw _ _ _ _)
  rw [hsame]
  exact ⟨rfl, rfl, rfl, rfl, rfl⟩

/-- Witness for C10: `set(5, 5, 1)` on the empty 3 x 3 store throws the out-of-range error
and `get_nnz()` is still 0. -/
theorem coo_failed_set_changes_nothing_witness :
    ((SparseMatrixCOO.construct 3 3 : SparseMatrixCOO Int).set 5 5 1).1 =
      .throw (.out_of_range msgRange) ∧
    ((SparseMatrixCOO.construct 3 3 : SparseMatrixCOO Int).set 5 5 1).2.get_nnz = 0 ∧
    (((SparseMatrixCOO.construct 3 3 : SparseMatrixCOO Int).set 5 5 1).2 =
        SparseMatrixCOO.construct 3 3 ∧
      ((SparseMatrixCOO.construct 3 3 : SparseMatrixCOO Int).set 5 5 1).2.rows =
        (SparseMatrixCOO.construct 3 3 : SparseMatrixCOO Int).rows ∧
      ((SparseMatrixCOO.construct 3 3 : SparseMatrixCOO Int).set 5 5 1).2.cols =
        (SparseMatrixCOO.construct 3 3 : SparseMatrixCOO Int).cols ∧
      ((SparseMatrixCOO.construct 3 3 : SparseMatrixCOO Int).set 5 5 1).2.values =
        (SparseMatrixCOO.construct 3 3 : SparseMatrixCOO Int).values ∧
      ((SparseMatrixCOO.construct 3 3 : SparseMatrixCOO Int).set 5 5 1).2.get_nnz =
        (SparseMatrixCOO.construct 3 3 : SparseMatrixCOO Int).get_nnz) :=
  ⟨by decide, by decide,
    coo_failed_set_changes_nothing (SparseMatrixCOO.construct 3 3) 5 5 1 (by decide)⟩

/-! ## The trailing loop of the COO write operator -/

theorem SparseMatrixCOO.scan_rows (row : Nat) :
    ∀ (i : Nat) (rows : List Nat), (SparseMatrixCOO.scan row i rows).2 = rows := by
  intro i
  induction i with
  | zero => intro rows; rfl
  | succ i ih =>
    intro rows
    rw [SparseMatrixCOO.scan]
    cases hr : rows[i]? with
    | none => rfl
    | some r =>
      simp only
      by_cases hlt : r < row
      · have hgt : ¬ r > row := by omega
        simp only [hlt, hgt, if_true, if_false]
        exact ih rows
      · simp only [hlt, if_false]

theorem SparseMatrixCOO.scanAssigned_nil (row : Nat) :
    ∀ (i : Nat) (rows : List Nat), SparseMatrixCOO.scanAssigned row i rows = [] := by
  intro i
  induction i with
  | zero => intro rows; rfl
  | succ i ih =>
    intro rows
    rw [SparseMatrixCOO.scanAssigned]
    cases hr : rows[i]? with
    | none => rfl
    | some r =>
      simp only
      by_cases hlt : r < row
      · have hgt : ¬ r > row := by omega
        simp only [hlt, hgt, if_true, if_false, List.nil_append]
        exact ih rows
      · simp only [hlt, if_false]

/-- The loop reaches `i = -1` exactly when every row index below the start is smaller than
`row`. -/
theorem SparseMatrixCOO.scan_ub_of_all_lt (row : Nat) :
    ∀ (i : Nat) (rows : List Nat), i ≤ rows.length → (∀ j, j < i → ∀ r, rows[j]? = some r → r < row) →
      (SparseMatrixCOO.scan row i rows).1 = .ub := by
  intro i
  induction i with
  | zero => intro rows _ _; rfl
  | succ i ih =>
    intro rows hlen hall
    rw [SparseMatrixCOO.scan]
    have hi : i < rows.length := by omega
    rw [List.getElem?_eq_getElem hi]
    have hlt : rows[i] < row := hall i (by omega) _ (List.getElem?_eq_getElem hi)
    have hgt : ¬ rows[i] > row := by omega
    simp only [hlt, hgt, if_true, if_false]
    exact ih rows (by omega) (fun j hj r hr => hall j (by omega) r hr)

/-- A write that passes the range check leaves the three vectors with the new triple
appended. -/
theorem SparseMatrixCOO.set_accepted {α : Type} (m : SparseMatrixCOO α) (row col : Nat)
    (value : α) (hacc : ¬ (row > m.num_rows ∨ col > m.num_cols)) :
    (m.set row col value).2 =
      ⟨m.values ++ [value], m.rows ++ [row], m.cols ++ [col], m.num_rows, m.num_cols⟩ := by
  simp only [SparseMatrixCOO.set, hacc, if_false, SparseMatrixCOO.scan_rows]

theorem SparseMatrixCOO.set_rejected {α : Type} (m : SparseMatrixCOO α) (row col : Nat)
    (value : α) (hrej : row > m.num_rows ∨ col > m.num_cols) :
    m.set row col value = (.throw (.out_of_range msgRange), m) := by
  simp only [SparseMatrixCOO.set, hrej, if_true]

/-! ## Frame properties of the write operators -/

theorem SparseMatrixCSR.slot_dims {α : Type} [Zero α] (m : SparseMatrixCSR α) (row col : Nat) :
    (m.slot row col).2.num_rows = m.num_rows ∧ (m.slot row col).2.num_cols = m.num_cols := by
  unfold SparseMatrixCSR.slot
  repeat' split
  all_goals exact ⟨rfl, rfl⟩

theorem SparseMatrixCSR.set_dims {α : Type} [Zero α] (m : SparseMatrixCSR α) (row col : Nat)
    (value : α) :
    (m.set row col value).2.num_rows = m.num_rows ∧
    (m.set row col value).2.num_cols = m.num_cols := by
  have h := SparseMatrixCSR.slot_dims m row col
  unfold SparseMatrixCSR.set
  split
  all_goals
    rename_i heq
    rw [heq] at h
    exact h

theorem SparseMatrixCOO.write_dims {α : Type} (m : SparseMatrixCOO α) (row col : Nat)
    (value : α) :
    (m.set row col value).2.num_rows = m.num_rows ∧
    (m.set row col value).2.num_cols = m.num_cols := by
  by_cases hrej : row > m.num_rows ∨ col > m.num_cols
  · rw [SparseMatrixCOO.set_rejected m row col value hrej]
    exact ⟨rfl, rfl⟩
  · rw [SparseMatrixCOO.set_accepted m row col value hrej]
    exact ⟨rfl, rfl⟩

/-- C15. For both stores `get_num_rows()` and `get_num_cols()` return the values given to
the constructor, and no write or set, whether it returns or throws, changes `num_rows` or
`num_cols`. -/
theorem dimensions_fixed {α : Type} [Zero α] :
    (∀ rows cols : Nat,
      (SparseMatrixCOO.construct rows cols : SparseMatrixCOO α).get_num_rows = rows ∧
      (SparseMatrixCOO.construct rows cols : SparseMatrixCOO α).get_num_cols = cols ∧
      (SparseMatrixCSR.construct rows cols : SparseMatrixCSR α).get_num_rows = rows ∧
      (SparseMatrixCSR.construct rows cols : SparseMatrixCSR α).get_num_cols = cols) ∧
    (∀ (m : SparseMatrixCOO α) (row col : Nat) (value : α),
      (m.set row col value).2.get_num_rows = m.get_num_rows ∧
      (m.set row col value).2.get_num_cols = m.get_num_cols) ∧
    (∀ (m : SparseMatrixCSR α) (row col : Nat) (value : α),
      (m.slot row col).2.get_num_rows = m.get_num_rows ∧
      (m.slot row col).2.get_num_cols = m.get_num_cols ∧
      (m.set row col value).2.get_num_rows = m.get_num_rows ∧
      (m.set row col value).2.get_num_cols = m.get_num_cols) := by
  refine ⟨fun rows cols => ⟨rfl, rfl, rfl, rfl⟩, ?_, ?_⟩
  · intro m row col value
    exact SparseMatrixCOO.write_dims m row col value
  · intro m row col value
    exact ⟨(SparseMatrixCSR.slot_dims m row col).1, (SparseMatrixCSR.slot_dims m row col).2,
      (SparseMatrixCSR.set_dims m row col value).1, (SparseMatrixCSR.set_dims m row col value).2⟩

/-! ## Further claims on the COO store -/

/-- C17. A COO write that passes the range check is a pure append: afterwards `rows`,
`cols`, `values` are the vectors before the call with `row`, `col`, `value` added at the
end, and the trailing loop executes its assignment `rows[i+1] = rows[i]` at no index. -/
theorem coo_set_is_append {α : Type} (m : SparseMatrixCOO α) (row col : Nat) (value : α)
    (hacc : ¬ (row > m.num_rows ∨ col > m.num_cols)) :
    (m.set row col value).2.rows = m.rows ++ [row] ∧
    (m.set row col value).2.cols = m.cols ++ [col] ∧
    (m.set row col value).2.values = m.values ++ [value] ∧
    SparseMatrixCOO.scanAssigned row ((m.rows ++ [row]).length - 1) (m.rows ++ [row]) = [] := by
  rw [SparseMatrixCOO.set_accepted m row col value hacc]
  exact ⟨rfl, rfl, rfl, SparseMatrixCOO.scanAssigned_nil _ _ _⟩

/-- Witness for C17: the write of `(1, 0, 7)` on the 3 x 3 store holding `(2, 0, 5)` and
`(0, 1, 4)`, where the loop runs over a smaller row index before it stops. -/
theorem coo_set_is_append_witness :
    ¬ (1 > (⟨[5, 4], [2, 0], [0, 1], 3, 3⟩ : SparseMatrixCOO Int).num_rows ∨
      0 > (⟨[5, 4], [2, 0], [0, 1], 3, 3⟩ : SparseMatrixCOO Int).num_cols) ∧
    ((⟨[5, 4], [2, 0], [0, 1], 3, 3⟩ : SparseMatrixCOO Int).set 1 0 7).1 = .ret () ∧
    (((⟨[5, 4], [2, 0], [0, 1], 3, 3⟩ : SparseMatrixCOO Int).set 1 0 7).2.rows =
        (⟨[5, 4], [2, 0], [0, 1], 3, 3⟩ : SparseMatrixCOO Int).rows ++ [1] ∧
      ((⟨[5, 4], [2, 0], [0, 1], 3, 3⟩ : SparseMatrixCOO Int).set 1 0 7).2.cols =
        (⟨[5, 4], [2, 0], [0, 1], 3, 3⟩ : SparseMatrixCOO Int).cols ++ [0] ∧
      ((⟨[5, 4], [2, 0], [0, 1], 3, 3⟩ : SparseMatrixCOO Int).set 1 0 7).2.values =
        (⟨[5, 4], [2, 0], [0, 1], 3, 3⟩ : SparseMatrixCOO Int).values ++ [7] ∧
      SparseMatrixCOO.scanAssigned 1
        (((⟨[5, 4], [2, 0], [0, 1], 3, 3⟩ : SparseMatrixCOO Int).rows ++ [1]).length - 1)
        ((⟨[5, 4], [2, 0], [0, 1], 3, 3⟩ : SparseMatrixCOO Int).rows ++ [1]) = []) :=
  ⟨by decide, by decide,
    coo_set_is_append (⟨[5, 4], [2, 0], [0, 1], 3, 3⟩ : SparseMatrixCOO Int) 1 0 7 (by decide)⟩

/-- C18 at failing inputs: on the empty 3 x 3 store the write `(0, 0, 1)` starts its loop at
`i = -1` and reads `rows[-1]`; on the store holding `(0, 0, 5)` the write `(1, 0, 1)` reads
`rows[0]`, finds it smaller than `row`, and goes on to `rows[-1]`. -/
theorem coo_scan_reads_before_the_vector :
    SparseMatrixCOO.scan 0 (([] ++ [0] : List Nat).length - 1) ([] ++ [0]) = (.ub, [0]) ∧
    ((SparseMatrixCOO.construct 3 3 : SparseMatrixCOO Int).set 0 0 1).1 = .ub ∧
    ((⟨[5], [0], [0], 3, 3⟩ : SparseMatrixCOO Int).set 1 0 1).1 = .ub := by
  decide

/-- C12 at failing inputs: on the empty 3 x 3 store the write `(3, 3, 1)` passes the range
check and stores the row index 3 and the column index 3; on the store holding `(2, 0, 5)`
the write `(2, 3, 1)` returns and stores the column index 3.  Neither store is in bounds,
and the product with a vector of length 3 leaves the vectors `result` or `vec`. -/
theorem coo_stored_index_out_of_bounds :
    ((SparseMatrixCOO.construct 3 3 : SparseMatrixCOO Int).set 3 3 1).1 ≠
      .throw (.out_of_range msgRange) ∧
    ((SparseMatrixCOO.construct 3 3 : SparseMatrixCOO Int).set 3 3 1).2 =
      ⟨[1], [3], [3], 3, 3⟩ ∧
    ¬ (⟨[1], [3], [3], 3, 3⟩ : SparseMatrixCOO Int).InBounds ∧
    (⟨[1], [3], [3], 3, 3⟩ : SparseMatrixCOO Int).multiply [1, 1, 1] = .ub ∧
    (⟨[5], [2], [0], 3, 3⟩ : SparseMatrixCOO Int).set 2 3 1 =
      (.ret (), ⟨[5, 1], [2, 2], [0, 3], 3, 3⟩) ∧
    ¬ (⟨[5, 1], [2, 2], [0, 3], 3, 3⟩ : SparseMatrixCOO Int).InBounds ∧
    (⟨[5, 1], [2, 2], [0, 3], 3, 3⟩ : SparseMatrixCOO Int).multiply [1, 1, 1] = .ub := by
  decide

/-- C13 at a failing input: on the 3 x 3 store holding `(2, 0, 5)` the write `(2, 3, 1)`
returns, and the product of the resulting store with the zero vector of length 3 reads
`vec[3]` instead of returning the zero vector. -/
theorem coo_multiply_zero_vector_out_of_bounds :
    (⟨[5], [2], [0], 3, 3⟩ : SparseMatrixCOO Int).set 2 3 1 =
      (.ret (), ⟨[5, 1], [2, 2], [0, 3], 3, 3⟩) ∧
    (⟨[5, 1], [2, 2], [0, 3], 3, 3⟩ : SparseMatrixCOO Int).multiply [0, 0, 0] = .ub ∧
    (⟨[5, 1], [2, 2], [0, 3], 3, 3⟩ : SparseMatrixCOO Int).multiply [0, 0, 0] ≠
      .ret [0, 0, 0] := by
  decide

/-- C20. On a COO store whose three vectors have one length: when some entry carries
`(row, col)`, the read operator returns `values[i]` for the smallest index `i` that carries
it; so after two writes `v1`, `v2` at a position `(row, col)` that had no entry, both passing
the range check, the read at `(row, col)` returns `v1`. -/
theorem coo_get_returns_earliest {α : Type} (m : SparseMatrixCOO α) (hwf : m.WF)
    (row col : Nat) :
    ((∃ i : Nat, m.rows[i]? = some row ∧ m.cols[i]? = some col) →
      ∃ (i : Nat) (v : α), m.rows[i]? = some row ∧ m.cols[i]? = some col ∧
        m.values[i]? = some v ∧
        (∀ j, j < i → ¬ (m.rows[j]? = some row ∧ m.cols[j]? = some col)) ∧
        m.get row col = .ret v) ∧
    (∀ v1 v2 : α, ¬ (row > m.num_rows ∨ col > m.num_cols) →
      (¬ ∃ i : Nat, m.rows[i]? = some row ∧ m.cols[i]? = some col) →
      ((m.set row col v1).2.set row col v2).2.get row col = .ret v1) := by
  refine ⟨?_, ?_⟩
  · rintro ⟨i0, hi0⟩
    rcases SparseMatrixCOO.getLoop_spec m hwf row col m.values.length 0 (by omega) with
      ⟨_, hnone⟩ | ⟨j, v, _, hr, hc, hv, hfirst, hret⟩
    · exact absurd hi0 (hnone i0 (Nat.zero_le _))
    · exact ⟨j, v, hr, hc, hv, fun j1 hj1 => hfirst j1 (Nat.zero_le _) hj1, hret⟩
  · intro v1 v2 hacc hfree
    have h1 := SparseMatrixCOO.set_accepted m row col v1 hacc
    have h2 := SparseMatrixCOO.set_accepted (m.set row col v1).2 row col v2
      (by rw [h1]; exact hacc)
    rw [h1] at h2
    simp only [List.append_assoc, List.singleton_append] at h2
    rw [h1, h2]
    obtain ⟨hwr, hwc⟩ := hwf
    have hwf2 : (⟨m.values ++ [v1, v2], m.rows ++ [row, row], m.cols ++ [col, col],
        m.num_rows, m.num_cols⟩ : SparseMatrixCOO α).WF := by
      simp [SparseMatrixCOO.WF, hwr, hwc]
    have hrn : (m.rows ++ [row, row])[m.values.length]? = some row := by
      rw [List.getElem?_append_right (by omega)]
      simp [hwr]
    have hcn : (m.cols ++ [col, col])[m.values.length]? = some col := by
      rw [List.getElem?_append_right (by omega)]
      simp [hwc]
    have hvn : (m.values ++ [v1, v2])[m.values.length]? = some v1 := by
      rw [List.getElem?_append_right (by omega)]
      simp
    rcases SparseMatrixCOO.getLoop_spec _ hwf2 row col (m.values ++ [v1, v2]).length 0
        (Nat.zero_add _) with
      ⟨_, hnone⟩ | ⟨j, v, _, hr, hc, hv, hfirst, hret⟩
    · exact absurd ⟨hrn, hcn⟩ (hnone m.values.length (Nat.zero_le _))
    · simp only at hr hc hv hfirst hret
      have hj : j = m.values.length := by
        rcases Nat.lt_trichotomy j m.values.length with hlt | heq | hgt
        · exfalso
          apply hfree
          refine ⟨j, ?_, ?_⟩
          · rw [List.getElem?_append_left (by omega)] at hr
            exact hr
          · rw [List.getElem?_append_left (by omega)] at hc
            exact hc
        · exact heq
        · exact absurd ⟨hrn, hcn⟩ (hfirst m.values.length (Nat.zero_le _) hgt)
      subst hj
      rw [hvn] at hv
      have hv1 : v = v1 := (Option.some.inj hv).symm
      subst hv1
      exact hret

/-- Witness for C20: the store holding `(2, 0, 5)`, `(1, 1, 4)` and `(1, 1, 9)` read at
`(1, 1)`, and the same store written twice at the free position `(0, 2)`. -/
theorem coo_get_returns_earliest_witness :
    (⟨[5, 4, 9], [2, 1, 1], [0, 1, 1], 3, 3⟩ : SparseMatrixCOO Int).WF ∧
    (⟨[5, 4, 9], [2, 1, 1], [0, 1, 1], 3, 3⟩ : SparseMatrixCOO Int).get 1 1 = .ret 4 ∧
    (∃ (i : Nat) (v : Int),
      (⟨[5, 4, 9], [2, 1, 1], [0, 1, 1], 3, 3⟩ : SparseMatrixCOO Int).rows[i]? = some 1 ∧
      (⟨[5, 4, 9], [2, 1, 1], [0, 1, 1], 3, 3⟩ : SparseMatrixCOO Int).cols[i]? = some 1 ∧
      (⟨[5, 4, 9], [2, 1, 1], [0, 1, 1], 3, 3⟩ : SparseMatrixCOO Int).values[i]? = some v ∧
      (∀ j, j < i →
        ¬ ((⟨[5, 4, 9], [2, 1, 1], [0, 1, 1], 3, 3⟩ : SparseMatrixCOO Int).rows[j]? = some 1 ∧
          (⟨[5, 4, 9], [2, 1, 1], [0, 1, 1], 3, 3⟩ : SparseMatrixCOO Int).cols[j]? =
            some 1)) ∧
      (⟨[5, 4, 9], [2, 1, 1], [0, 1, 1], 3, 3⟩ : SparseMatrixCOO Int).get 1 1 = .ret v) ∧
    (((⟨[5, 4, 9], [2, 1, 1], [0, 1, 1], 3, 3⟩ : SparseMatrixCOO Int).set 0 2 7).2.set
      0 2 8).2.get 0 2 = .ret 7 :=
  ⟨by decide, by decide,
    (coo_get_returns_earliest (⟨[5, 4, 9], [2, 1, 1], [0, 1, 1], 3, 3⟩ : SparseMatrixCOO Int)
      (by decide) 1 1).1 ⟨1, by decide⟩,
    (coo_get_returns_earliest (⟨[5, 4, 9], [2, 1, 1], [0, 1, 1], 3, 3⟩ : SparseMatrixCOO Int)
      (by decide) 0 2).2 7 8 (by decide)
      (by
        rintro ⟨i, h1, _⟩
        rcases i with _ | _ | _ | i <;> simp at h1)⟩

/-! ## The COO product -/

theorem rowSum_nil {α : Type} [Semiring α] (vec : List α) (r : Nat) :
    SparseMatrixCOO.rowSum ([] : List (Nat × Nat × α)) vec r = 0 := by
  simp [SparseMatrixCOO.rowSum]

theorem rowSum_cons {α : Type} [Semiring α] (e : Nat × Nat × α) (es : List (Nat × Nat × α))
    (vec : List α) (r : Nat) :
    SparseMatrixCOO.rowSum (e :: es) vec r =
      (if e.1 = r then e.2.2 * vec[e.2.1]?.getD 0 else 0) + SparseMatrixCOO.rowSum es vec r := by
  by_cases h : e.1 = r <;> simp [SparseMatrixCOO.rowSum, List.filter_cons, h]

theorem rowSum_eq_zero {α : Type} [Semiring α] (es : List (Nat × Nat × α)) (vec : List α)
    (r : Nat) (hno : ∀ e ∈ es, e.1 ≠ r) : SparseMatrixCOO.rowSum es vec r = 0 := by
  induction es with
  | nil => exact rowSum_nil vec r
  | cons e es ih =>
    rw [rowSum_cons, if_neg (hno e (List.mem_cons_self _ _)),
      ih (fun e1 he1 => hno e1 (List.mem_cons_of_mem _ he1)), add_zero]

theorem SparseMatrixCOO.entries_length {α : Type} (m : SparseMatrixCOO α) (hwf : m.WF) :
    m.entries.length = m.values.length := by
  simp [SparseMatrixCOO.entries, hwf.1, hwf.2]

theorem SparseMatrixCOO.entries_drop {α : Type} (m : SparseMatrixCOO α) (hwf : m.WF) (i : Nat)
    (hr : i < m.rows.length) (hc : i < m.cols.length) (hv : i < m.values.length) :
    m.entries.drop i = (m.rows[i], m.cols[i], m.values[i]) :: m.entries.drop (i + 1) := by
  have hi : i < m.entries.length := by rw [m.entries_length hwf]; exact hv
  rw [List.drop_eq_getElem_cons hi]
  simp [SparseMatrixCOO.entries, List.getElem_zip]

/-- The product loop from index `i` on adds to each `result[r]` the sum over the triples
of row `r` from `i` on, and stays inside all vectors when the stored indices are in bounds
and `vec` has `num_cols` elements. -/
theorem SparseMatrixCOO.mulLoop_spec {α : Type} [Semiring α] (m : SparseMatrixCOO α)
    (hwf : m.WF) (hin : m.InBounds) (vec : List α) (hvec : vec.length = m.num_cols) :
    ∀ (n i : Nat) (result : List α), i + n = m.values.length → result.length = m.num_rows →
      ∃ res, m.mulLoop vec n i result = .ret res ∧ res.length = m.num_rows ∧
        ∀ r, r < m.num_rows →
          res[r]? = some (result[r]?.getD 0 + SparseMatrixCOO.rowSum (m.entries.drop i) vec r) := by
  intro n
  induction n with
  | zero =>
    intro i result hi hlen
    refine ⟨result, rfl, hlen, ?_⟩
    intro r hr
    have hdrop : m.entries.drop i = [] := by
      apply List.drop_eq_nil_of_le
      rw [m.entries_length hwf]
      omega
    rw [hdrop, rowSum_nil, add_zero, List.getElem?_eq_getElem (by omega)]
    rfl
  | succ n ih =>
    intro i result hi hlen
    have hiv : i < m.values.length := by omega
    have hir : i < m.rows.length := by rw [hwf.1]; exact hiv
    have hic : i < m.cols.length := by rw [hwf.2]; exact hiv
    have hrow : m.rows[i] < result.length := by
      rw [hlen]; exact hin.1 _ (List.getElem_mem _)
    have hcol : m.cols[i] < vec.length := by
      rw [hvec]; exact hin.2 _ (List.getElem_mem _)
    obtain ⟨res, hres, hreslen, hsum⟩ := ih (i + 1)
      (result.set m.rows[i] (result[m.rows[i]] + m.values[i] * vec[m.cols[i]]))
      (by omega) (by rw [List.length_set]; exact hlen)
    refine ⟨res, ?_, hreslen, ?_⟩
    · rw [SparseMatrixCOO.mulLoop]
      simp only [List.getElem?_eq_getElem hir, List.getElem?_eq_getElem hic,
        List.getElem?_eq_getElem hiv, List.getElem?_eq_getElem hrow,
        List.getElem?_eq_getElem hcol]
      exact hres
    · intro r hr
      have hrl : r < result.length := by omega
      rw [hsum r hr, m.entries_drop hwf i hir hic hiv, rowSum_cons]
      simp only [List.getElem?_eq_getElem hcol, Option.getD_some]
      by_cases heq : m.rows[i] = r
      · subst heq
        simp only [if_true, List.getElem?_set_self hrl, List.getElem?_eq_getElem hrl,
          Option.getD_some, add_assoc]
      · simp only [heq, if_false, zero_add, List.getElem?_set_ne heq]

/-- C11. On a COO store whose vectors have one length and whose stored indices are in
bounds, over any semiring of scalars: the product throws the dimension-mismatch error
exactly when `len(vec) != num_cols`; otherwise it returns a vector of length `num_rows`
whose element `r` is the sum of `values[i] * vec[cols[i]]` over the stored `i` with
`rows[i] = r`, which is `0` for a row without entries. -/
theorem coo_multiply_is_matrix_vector_product {α : Type} [Semiring α] (m : SparseMatrixCOO α)
    (hwf : m.WF) (hin : m.InBounds) (vec : List α) :
    (m.multiply vec = .throw (.invalid_argument msgDim) ↔ vec.length ≠ m.num_cols) ∧
    (vec.length = m.num_cols →
      ∃ result, m.multiply vec = .ret result ∧ result.length = m.num_rows ∧
        (∀ r, r < m.num_rows →
          result[r]? = some (SparseMatrixCOO.rowSum m.entries vec r)) ∧
        (∀ r, r < m.num_rows → r ∉ m.rows → result[r]? = some 0)) := by
  have hret : vec.length = m.num_cols →
      ∃ result, m.multiply vec = .ret result ∧ result.length = m.num_rows ∧
        (∀ r, r < m.num_rows →
          result[r]? = some (SparseMatrixCOO.rowSum m.entries vec r)) := by
    intro hvec
    obtain ⟨res, hres, hlen, hsum⟩ := SparseMatrixCOO.mulLoop_spec m hwf hin vec hvec
      m.values.length 0 (List.replicate m.num_rows 0) (Nat.zero_add _) (List.length_replicate _ _)
    refine ⟨res, ?_, hlen, ?_⟩
    · have hne : ¬ vec.length ≠ m.num_cols := fun h => h hvec
      rw [SparseMatrixCOO.multiply, if_neg hne]
      exact hres
    · intro r hr
      rw [hsum r hr, List.drop_zero, List.getElem?_replicate, if_pos hr, Option.getD_some,
        zero_add]
  refine ⟨⟨?_, ?_⟩, ?_⟩
  · intro hthrow hvec
    obtain ⟨res, hres, _⟩ := hret hvec
    rw [hres] at hthrow
    exact Res.noConfusion hthrow
  · intro hne
    rw [SparseMatrixCOO.multiply, if_pos hne]
  · intro hvec
    obtain ⟨res, hres, hlen, hsum⟩ := hret hvec
    refine ⟨res, hres, hlen, hsum, ?_⟩
    intro r hr hnot
    rw [hsum r hr, rowSum_eq_zero]
    intro e he heq
    apply hnot
    rw [← heq]
    exact (List.of_mem_zip he).1

/-- Witness for C11: the 3 x 3 store holding `(2, 0, 5)`, `(0, 1, 1)`, `(2, 2, 2)` times
`[1, 10, 100]`, and times a vector of length 2. -/
theorem coo_multiply_is_matrix_vector_product_witness :
    (⟨[5, 1, 2], [2, 0, 2], [0, 1, 2], 3, 3⟩ : SparseMatrixCOO Int).WF ∧
    (⟨[5, 1, 2], [2, 0, 2], [0, 1, 2], 3, 3⟩ : SparseMatrixCOO Int).InBounds ∧
    (⟨[5, 1, 2], [2, 0, 2], [0, 1, 2], 3, 3⟩ : SparseMatrixCOO Int).multiply [1, 10, 100] =
      .ret [10, 0, 205] ∧
    (⟨[5, 1, 2], [2, 0, 2], [0, 1, 2], 3, 3⟩ : SparseMatrixCOO Int).multiply [1, 10] =
      .throw (.invalid_argument msgDim) ∧
    (∃ result : List Int,
      (⟨[5, 1, 2], [2, 0, 2], [0, 1, 2], 3, 3⟩ : SparseMatrixCOO Int).multiply [1, 10, 100] =
        .ret result ∧
      result.length = (⟨[5, 1, 2], [2, 0, 2], [0, 1, 2], 3, 3⟩ : SparseMatrixCOO Int).num_rows ∧
      (∀ r, r < (⟨[5, 1, 2], [2, 0, 2], [0, 1, 2], 3, 3⟩ : SparseMatrixCOO Int).num_rows →
        result[r]? = some (SparseMatrixCOO.rowSum
          (⟨[5, 1, 2], [2, 0, 2], [0, 1, 2], 3, 3⟩ : SparseMatrixCOO Int).entries
          [1, 10, 100] r)) ∧
      (∀ r, r < (⟨[5, 1, 2], [2, 0, 2], [0, 1, 2], 3, 3⟩ : SparseMatrixCOO Int).num_rows →
        r ∉ (⟨[5, 1, 2], [2, 0, 2], [0, 1, 2], 3, 3⟩ : SparseMatrixCOO Int).rows →
        result[r]? = some 0)) :=
  ⟨by decide, by decide, by decide,
    (coo_multiply_is_matrix_vector_product
      (⟨[5, 1, 2], [2, 0, 2], [0, 1, 2], 3, 3⟩ : SparseMatrixCOO Int)
      (by decide) (by decide) [1, 10]).1.2 (by decide),
    (coo_multiply_is_matrix_vector_product
      (⟨[5, 1, 2], [2, 0, 2], [0, 1, 2], 3, 3⟩ : SparseMatrixCOO Int)
      (by decide) (by decide) [1, 10, 100]).2 (by decide)⟩

/-! ## The CSR product -/

theorem SparseMatrixCSR.rowDot_spec {α : Type} [Semiring α] (columns : List Nat)
    (values vec : List α) (hlen : columns.length = values.length)
    (hcols : ∀ c ∈ columns, c < vec.length) :
    ∀ (n k : Nat) (acc : α), k + n ≤ columns.length →
      SparseMatrixCSR.rowDot columns values vec n k acc =
        .ret (acc + ((((columns.zip values).drop k).take n).map
          (fun e => e.2 * vec[e.1]?.getD 0)).sum) := by
  intro n
  induction n with
  | zero => intro k acc _; simp [SparseMatrixCSR.rowDot]
  | succ n ih =>
    intro k acc hk
    have hkc : k < columns.length := by omega
    have hkv : k < values.length := by omega
    have hkz : k < (columns.zip values).length := by simp; omega
    have hcv : columns[k] < vec.length := hcols _ (List.getElem_mem _)
    rw [SparseMatrixCSR.rowDot]
    simp only [List.getElem?_eq_getElem hkc, List.getElem?_eq_getElem hkv,
      List.getElem?_eq_getElem hcv]
    rw [ih (k + 1) _ (by omega), List.drop_eq_getElem_cons hkz]
    simp only [List.take_succ_cons, List.map_cons, List.sum_cons, List.getElem_zip,
      List.getElem?_eq_getElem hcv, Option.getD_some, add_assoc]

theorem SparseMatrixCSR.mulRows_spec {α : Type} [Semiring α] (m : SparseMatrixCSR α)
    (h : m.Inv) (hcols : m.ColsInRange) (vec : List α) (hvec : vec.length = m.num_cols) :
    ∀ (n r : Nat), r + n = m.num_rows →
      ∃ res, m.mulRows vec n r = .ret res ∧ res.length = n ∧
        ∀ j, j < n → res[j]? = some (m.rowProd vec (r + j)) := by
  intro n
  induction n with
  | zero =>
    intro r _
    exact ⟨[], rfl, rfl, fun j hj => absurd hj (Nat.not_lt_zero j)⟩
  | succ n ih =>
    intro r hr
    obtain ⟨s, e, hs, he, hse, hel⟩ := h.bounds (Nat.le_succ r) (by omega)
    obtain ⟨res, hres, hlen, hsum⟩ := ih (r + 1) (by omega)
    have hcv := h.2.2.2.1
    have hdot := SparseMatrixCSR.rowDot_spec m.columns m.values vec hcv
      (fun c hc => by rw [hvec]; exact hcols c hc) (e - s) s 0 (by omega)
    refine ⟨m.rowProd vec r :: res, ?_, by simp [hlen], ?_⟩
    · rw [SparseMatrixCSR.mulRows]
      simp only [hs, he, hdot, hres, zero_add, SparseMatrixCSR.rowProd,
        m.rowSlice_eq r s e hs he]
    · intro j hj
      cases j with
      | zero => simp
      | succ j =>
        rw [List.getElem?_cons_succ, hsum j (by omega)]
        congr 2
        omega

/-- C14. For the product modelled from the spec, on a CSR store satisfying the row-pointer
invariant with all column indices in range, over any semiring of scalars: the product
throws the dimension-mismatch error when `len(vec) != cols`, and for `len(vec) = cols` it
returns the vector of length `rows` whose element `r` is the sum of
`values[k] * vec[columns[k]]` over `k` in `[row_idx[r], row_idx[r+1])`. -/
theorem csr_multiply_is_row_major_product {α : Type} [Semiring α] (m : SparseMatrixCSR α)
    (h : m.Inv) (hcols : m.ColsInRange) (vec : List α) :
    (vec.length ≠ m.num_cols → m.multiply vec = .throw (.invalid_argument msgDim)) ∧
    (vec.length = m.num_cols →
      ∃ result, m.multiply vec = .ret result ∧ result.length = m.num_rows ∧
        ∀ r, r < m.num_rows → result[r]? = some (m.rowProd vec r)) := by
  refine ⟨?_, ?_⟩
  · intro hne
    rw [SparseMatrixCSR.multiply, if_pos hne]
  · intro hvec
    obtain ⟨res, hres, hlen, hsum⟩ := SparseMatrixCSR.mulRows_spec m h hcols vec hvec
      m.num_rows 0 (Nat.zero_add _)
    have hne : ¬ vec.length ≠ m.num_cols := fun hn => hn hvec
    refine ⟨res, ?_, hlen, ?_⟩
    · rw [SparseMatrixCSR.multiply, if_neg hne]
      exact hres
    · intro r hr
      rw [hsum r hr, Nat.zero_add]

/-- Witness for C14: the 3 x 3 store with `(0, 0, 1)`, `(1, 1, 2)`, `(2, 2, 3)` set in that
order gives `[1, 2, 3]` for the vector `[1, 1, 1]`, and throws for a vector of length 2. -/
theorem csr_multiply_is_row_major_product_witness :
    ((SparseMatrixCSR.construct 3 3 : SparseMatrixCSR Int).setAll
      [(0, 0, 1), (1, 1, 2), (2, 2, 3)]).1 = .ret () ∧
    ((SparseMatrixCSR.construct 3 3 : SparseMatrixCSR Int).setAll
      [(0, 0, 1), (1, 1, 2), (2, 2, 3)]).2.Inv ∧
    ((SparseMatrixCSR.construct 3 3 : SparseMatrixCSR Int).setAll
      [(0, 0, 1), (1, 1, 2), (2, 2, 3)]).2.ColsInRange ∧
    ((SparseMatrixCSR.construct 3 3 : SparseMatrixCSR Int).setAll
      [(0, 0, 1), (1, 1, 2), (2, 2, 3)]).2.multiply [1, 1, 1] = .ret [1, 2, 3] ∧
    ((SparseMatrixCSR.construct 3 3 : SparseMatrixCSR Int).setAll
      [(0, 0, 1), (1, 1, 2), (2, 2, 3)]).2.multiply [1, 1] =
        .throw (.invalid_argument msgDim) ∧
    (∃ result : List Int,
      ((SparseMatrixCSR.construct 3 3 : SparseMatrixCSR Int).setAll
        [(0, 0, 1), (1, 1, 2), (2, 2, 3)]).2.multiply [1, 1, 1] = .ret result ∧
      result.length = ((SparseMatrixCSR.construct 3 3 : SparseMatrixCSR Int).setAll
        [(0, 0, 1), (1, 1, 2), (2, 2, 3)]).2.num_rows ∧
      ∀ r, r < ((SparseMatrixCSR.construct 3 3 : SparseMatrixCSR Int).setAll
          [(0, 0, 1), (1, 1, 2), (2, 2, 3)]).2.num_rows →
        result[r]? = some (((SparseMatrixCSR.construct 3 3 : SparseMatrixCSR Int).setAll
          [(0, 0, 1), (1, 1, 2), (2, 2, 3)]).2.rowProd [1, 1, 1] r)) :=
  ⟨by decide, by decide, by decide, by decide,
    (csr_multiply_is_row_major_product
      ((SparseMatrixCSR.construct 3 3 : SparseMatrixCSR Int).setAll
        [(0, 0, 1), (1, 1, 2), (2, 2, 3)]).2 (by decide) (by decide) [1, 1]).1 (by decide),
    (csr_multiply_is_row_major_product
      ((SparseMatrixCSR.construct 3 3 : SparseMatrixCSR Int).setAll
        [(0, 0, 1), (1, 1, 2), (2, 2, 3)]).2 (by decide) (by decide) [1, 1, 1]).2
      (by decide)⟩

/-! ## The postcondition of the CSR write operator -/

theorem insert_getElem?_lt {β : Type} (xs : List β) (x : β) (p i : Nat) (hi : i < p)
    (hp : p ≤ xs.length) : (xs.take p ++ x :: xs.drop p)[i]? = xs[i]? := by
  rw [List.getElem?_append_left (by simp; omega), List.getElem?_take, if_pos hi]

theorem insert_getElem?_eq {β : Type} (xs : List β) (x : β) (p : Nat) (hp : p ≤ xs.length) :
    (xs.take p ++ x :: xs.drop p)[p]? = some x := by
  rw [List.getElem?_append_right (by simp)]
  simp [Nat.min_eq_left hp]

theorem insert_getElem?_gt {β : Type} (xs : List β) (x : β) (p i : Nat) (hi : p ≤ i)
    (hp : p ≤ xs.length) : (xs.take p ++ x :: xs.drop p)[i + 1]? = xs[i]? := by
  rw [List.getElem?_append_right (by simp; omega)]
  have h2 : i + 1 - (List.take p xs).length = (i - p) + 1 := by
    simp [Nat.min_eq_left hp]; omega
  rw [h2, List.getElem?_cons_succ, List.getElem?_drop]
  congr 1; omega

theorem SparseMatrixCSR.mem_rowCols_iff_holds {α : Type} {m : SparseMatrixCSR α} (h : m.Inv)
    {row : Nat} (col : Nat) (hr : row < m.num_rows) :
    col ∈ m.rowCols row ↔ m.holds row col := by
  obtain ⟨s, e, hs, he, hse, hel⟩ := h.bounds (Nat.le_succ row) hr
  rw [m.rowCols_eq row s e h.2.2.2.1 hs he, List.mem_iff_getElem?]
  constructor
  · rintro ⟨n, hn⟩
    rw [List.getElem?_take] at hn
    by_cases hlt : n < e - s
    · rw [if_pos hlt, List.getElem?_drop] at hn
      exact ⟨s, e, s + n, hs, he, by omega, by omega, hn⟩
    · rw [if_neg hlt] at hn
      exact Option.noConfusion hn
  · rintro ⟨s1, e1, k, hs1, he1, hsk, hke, hk⟩
    have hss : s1 = s := by rw [hs] at hs1; exact (Option.some.inj hs1).symm
    have hee : e1 = e := by rw [he] at he1; exact (Option.some.inj he1).symm
    subst hss hee
    refine ⟨k - s1, ?_⟩
    rw [List.getElem?_take, if_pos (by omega), List.getElem?_drop, ← hk]
    congr 1; omega

/-- C16. On a CSR store satisfying the row-pointer invariant, a write at an in-range
position that holds no entry returns the slot `p = row_idx[row+1]` (old value): `col` and
`0` are inserted at index `p` of `columns` and `values`, the elements below `p` stay and
those from `p` on move up by one, `row_idx[r]` grows by one for `r > row` and stays for
`r <= row`, `get_nnz()` grows by one, and `p` lies in the new slice of `row`. -/
theorem csr_write_postcondition {α : Type} [Zero α] (m : SparseMatrixCSR α) (h : m.Inv)
    (row col : Nat) (hr : row < m.num_rows) (hc : col < m.num_cols)
    (hfree : ¬ m.holds row col) :
    ∃ (p : Nat) (m1 : SparseMatrixCSR α),
      m.row_idx[row + 1]? = some p ∧ m.slot row col = (.ret p, m1) ∧
      (∀ i, i < p → m1.columns[i]? = m.columns[i]? ∧ m1.values[i]? = m.values[i]?) ∧
      m1.columns[p]? = some col ∧ m1.values[p]? = some 0 ∧
      (∀ i, p ≤ i → m1.columns[i + 1]? = m.columns[i]? ∧ m1.values[i + 1]? = m.values[i]?) ∧
      m1.columns.length = m.columns.length + 1 ∧
      (∀ r, r ≤ row → m1.row_idx[r]? = m.row_idx[r]?) ∧
      (∀ r, row < r → m1.row_idx[r]? = (m.row_idx[r]?).map (· + 1)) ∧
      m1.row_idx.length = m.row_idx.length ∧
      m1.get_nnz = m.get_nnz + 1 ∧
      (∃ s, m1.row_idx[row]? = some s ∧ m1.row_idx[row + 1]? = some (p + 1) ∧ s ≤ p) := by
  obtain ⟨s, p, hs, hp, hsp, hpl⟩ := h.bounds (Nat.le_succ row) hr
  have hcv := h.2.2.2.1
  have hpc : p ≤ m.columns.length := by omega
  have hfresh : col ∉ m.rowCols row :=
    fun hmem => hfree ((SparseMatrixCSR.mem_rowCols_iff_holds h col hr).mp hmem)
  have hslot := SparseMatrixCSR.slot_fresh h hr hc hfresh
  have hp1 : m.row_idx[row + 1]? = some p := hp
  rw [hp1, Option.getD_some] at hslot
  have hm1 : m.inserted row col 0 =
      ⟨m.values.take p ++ 0 :: m.values.drop p, m.columns.take p ++ col :: m.columns.drop p,
        bumpFrom (row + 1) m.row_idx, m.num_rows, m.num_cols⟩ := by
    simp only [SparseMatrixCSR.inserted, hp1, Option.getD_some]
  refine ⟨p, m.inserted row col 0, hp, hslot, ?_, ?_, ?_, ?_, ?_, ?_, ?_, ?_, ?_, ?_⟩
  · intro i hi
    rw [hm1]
    exact ⟨insert_getElem?_lt _ _ _ _ hi hpc, insert_getElem?_lt _ _ _ _ hi hpl⟩
  · rw [hm1]
    exact insert_getElem?_eq _ _ _ hpc
  · rw [hm1]
    exact insert_getElem?_eq _ _ _ hpl
  · intro i hi
    rw [hm1]
    exact ⟨insert_getElem?_gt _ _ _ _ hi hpc, insert_getElem?_gt _ _ _ _ hi hpl⟩
  · rw [hm1]
    simp only [List.length_append, List.length_take, List.length_cons, List.length_drop]
    omega
  · intro r hrr
    have hnot : ¬ row + 1 ≤ r := by omega
    rw [hm1]
    simp only [bumpFrom_getElem?, hnot, if_false]
    cases m.row_idx[r]? <;> rfl
  · intro r hrr
    have hle : row + 1 ≤ r := hrr
    rw [hm1]
    simp only [bumpFrom_getElem?, hle, if_true]
  · rw [hm1]
    exact bumpFrom_length _ _
  · rw [hm1]
    simp only [SparseMatrixCSR.get_nnz, List.length_append, List.length_take, List.length_cons,
      List.length_drop]
    omega
  · refine ⟨s, ?_, ?_, hsp⟩
    · have hnot : ¬ row + 1 ≤ row := by omega
      rw [hm1]
      simp only [bumpFrom_getElem?, hs, Option.map_some', hnot, if_false]
    · rw [hm1]
      simp only [bumpFrom_getElem?, hp1, Option.map_some', Nat.le_refl, if_true]

/-- Witness for C16: the write at `(0, 1)` on the 3 x 3 store built by the sets
`(1, 2, 7)`, `(0, 2, 5)`, `(2, 0, 9)`, which moves the entries of rows 1 and 2 up. -/
theorem csr_write_postcondition_witness :
    ((SparseMatrixCSR.construct 3 3 : SparseMatrixCSR Int).setAll
      [(1, 2, 7), (0, 2, 5), (2, 0, 9)]).2.Inv ∧
    ((SparseMatrixCSR.construct 3 3 : SparseMatrixCSR Int).setAll
      [(1, 2, 7), (0, 2, 5), (2, 0, 9)]).2.slot 0 1 =
      (.ret 1, ⟨[5, 0, 7, 9], [2, 1, 2, 0], [0, 2, 3, 4], 3, 3⟩) ∧
    ∃ (p : Nat) (m1 : SparseMatrixCSR Int),
      ((SparseMatrixCSR.construct 3 3 : SparseMatrixCSR Int).setAll
        [(1, 2, 7), (0, 2, 5), (2, 0, 9)]).2.row_idx[0 + 1]? = some p ∧
      ((SparseMatrixCSR.construct 3 3 : SparseMatrixCSR Int).setAll
        [(1, 2, 7), (0, 2, 5), (2, 0, 9)]).2.slot 0 1 = (.ret p, m1) ∧
      (∀ i, i < p →
        m1.columns[i]? = ((SparseMatrixCSR.construct 3 3 : SparseMatrixCSR Int).setAll
          [(1, 2, 7), (0, 2, 5), (2, 0, 9)]).2.columns[i]? ∧
        m1.values[i]? = ((SparseMatrixCSR.construct 3 3 : SparseMatrixCSR Int).setAll
          [(1, 2, 7), (0, 2, 5), (2, 0, 9)]).2.values[i]?) ∧
      m1.columns[p]? = some 1 ∧ m1.values[p]? = some 0 ∧
      (∀ i, p ≤ i →
        m1.columns[i + 1]? = ((SparseMatrixCSR.construct 3 3 : SparseMatrixCSR Int).setAll
          [(1, 2, 7), (0, 2, 5), (2, 0, 9)]).2.columns[i]? ∧
        m1.values[i + 1]? = ((SparseMatrixCSR.construct 3 3 : SparseMatrixCSR Int).setAll
          [(1, 2, 7), (0, 2, 5), (2, 0, 9)]).2.values[i]?) ∧
      m1.columns.length = ((SparseMatrixCSR.construct 3 3 : SparseMatrixCSR Int).setAll
        [(1, 2, 7), (0, 2, 5), (2, 0, 9)]).2.columns.length + 1 ∧
      (∀ r, r ≤ 0 →
        m1.row_idx[r]? = ((SparseMatrixCSR.construct 3 3 : SparseMatrixCSR Int).setAll
          [(1, 2, 7), (0, 2, 5), (2, 0, 9)]).2.row_idx[r]?) ∧
      (∀ r, 0 < r →
        m1.row_idx[r]? = (((SparseMatrixCSR.construct 3 3 : SparseMatrixCSR Int).setAll
          [(1, 2, 7), (0, 2, 5), (2, 0, 9)]).2.row_idx[r]?).map (· + 1)) ∧
      m1.row_idx.length = ((SparseMatrixCSR.construct 3 3 : SparseMatrixCSR Int).setAll
        [(1, 2, 7), (0, 2, 5), (2, 0, 9)]).2.row_idx.length ∧
      m1.get_nnz = ((SparseMatrixCSR.construct 3 3 : SparseMatrixCSR Int).setAll
        [(1, 2, 7), (0, 2, 5), (2, 0, 9)]).2.get_nnz + 1 ∧
      (∃ s, m1.row_idx[0]? = some s ∧ m1.row_idx[0 + 1]? = some (p + 1) ∧ s ≤ p) :=
  ⟨by decide, by decide,
    csr_write_postcondition
      ((SparseMatrixCSR.construct 3 3 : SparseMatrixCSR Int).setAll
        [(1, 2, 7), (0, 2, 5), (2, 0, 9)]).2 (by decide) 0 1 (by decide) (by decide)
      (by
        rintro ⟨s, e, k, hs, he, hsk, hke, hk⟩
        have hs0 : s = 0 := by
          have : (some 0 : Option Nat) = some s := hs
          exact (Option.some.inj this).symm
        have he1 : e = 1 := by
          have : (some 1 : Option Nat) = some e := he
          exact (Option.some.inj this).symm
        have hk0 : k = 0 := by omega
        subst hk0
        exact absurd hk (by decide))⟩

/-! ## Distinct columns in each CSR row -/

theorem SparseMatrixCSR.rowCols_of_ge {α : Type} {m : SparseMatrixCSR α} (h : m.Inv) {r : Nat}
    (hr : m.num_rows ≤ r) : m.rowCols r = [] := by
  have hnone : m.row_idx[r + 1]? = none := List.getElem?_eq_none (by rw [h.1]; omega)
  simp [SparseMatrixCSR.rowCols, SparseMatrixCSR.rowSlice, hnone]

/-- A set call on a store that satisfies the invariant and has distinct columns in every
row leaves such a store. -/
theorem SparseMatrixCSR.set_nodup {α : Type} [Zero α] {m : SparseMatrixCSR α} (h : m.Inv)
    (hnd : ∀ r, (m.rowCols r).Nodup) (row col : Nat) (value : α) :
    (m.set row col value).2.Inv ∧ ∀ r, ((m.set row col value).2.rowCols r).Nodup := by
  by_cases hout : row ≥ m.num_rows ∨ col ≥ m.num_cols
  · rw [SparseMatrixCSR.set_out_of_range m value hout]
    exact ⟨h, hnd⟩
  · have hr : row < m.num_rows := by omega
    have hc : col < m.num_cols := by omega
    by_cases hocc : col ∈ m.rowCols row
    · rw [SparseMatrixCSR.set_occupied h value hr hc hocc]
      exact ⟨h, hnd⟩
    · rw [SparseMatrixCSR.set_fresh h value hr hc hocc]
      have hinv := SparseMatrixCSR.inserted_inv h col value hr
      refine ⟨hinv, ?_⟩
      intro r
      by_cases hrn : r < m.num_rows
      · rw [SparseMatrixCSR.rowCols, SparseMatrixCSR.rowSlice_inserted h col value hr hrn]
        by_cases heq : r = row
        · subst heq
          simp only [if_true, List.map_append, List.map_cons, List.map_nil]
          rw [List.nodup_append]
          refine ⟨hnd r, List.nodup_singleton _, ?_⟩
          intro a ha hb
          rw [List.mem_singleton] at hb
          subst hb
          exact hocc ha
        · simp only [heq, if_false]
          exact hnd r
      · have hge : (m.inserted row col value).num_rows ≤ r := Nat.le_of_not_lt hrn
        rw [SparseMatrixCSR.rowCols_of_ge hinv hge]
        exact List.nodup_nil

theorem SparseMatrixCSR.setEach_nodup {α : Type} [Zero α] (ops : List (Nat × Nat × α)) :
    ∀ m : SparseMatrixCSR α, m.Inv → (∀ r, (m.rowCols r).Nodup) →
      (m.setEach ops).Inv ∧ ∀ r, ((m.setEach ops).rowCols r).Nodup := by
  induction ops with
  | nil => intro m h hnd; exact ⟨h, hnd⟩
  | cons o ops ih =>
    intro m h hnd
    obtain ⟨row, col, value⟩ := o
    have hstep := SparseMatrixCSR.set_nodup h hnd row col value
    exact ih _ hstep.1 hstep.2

/-- C19. In a CSR store built from empty by any sequence of set calls, returning or
throwing, the column indices in the slice of every row are pairwise distinct: two indices
of one slice that carry the same column are one index. -/
theorem csr_row_columns_distinct {α : Type} [Zero α] (rows cols : Nat)
    (ops : List (Nat × Nat × α)) (r : Nat) :
    (((SparseMatrixCSR.construct rows cols : SparseMatrixCSR α).setEach ops).rowCols r).Nodup ∧
    ∀ (i j : Nat) (c : Nat),
      (((SparseMatrixCSR.construct rows cols : SparseMatrixCSR α).setEach ops).rowCols r)[i]? =
        some c →
      (((SparseMatrixCSR.construct rows cols : SparseMatrixCSR α).setEach ops).rowCols r)[j]? =
        some c → i = j := by
  have hnd := (SparseMatrixCSR.setEach_nodup ops (SparseMatrixCSR.construct rows cols)
    (SparseMatrixCSR.construct_inv rows cols)
    (fun r => by
      simp [SparseMatrixCSR.rowCols, SparseMatrixCSR.construct_rowSlice])).2 r
  refine ⟨hnd, ?_⟩
  intro i j c hi hj
  have hil : i < (((SparseMatrixCSR.construct rows cols : SparseMatrixCSR α).setEach
      ops).rowCols r).length := by
    by_contra hge
    rw [List.getElem?_eq_none (by omega)] at hi
    exact Option.noConfusion hi
  have hjl : j < (((SparseMatrixCSR.construct rows cols : SparseMatrixCSR α).setEach
      ops).rowCols r).length := by
    by_contra hge
    rw [List.getElem?_eq_none (by omega)] at hj
    exact Option.noConfusion hj
  rw [List.getElem?_eq_getElem hil] at hi
  rw [List.getElem?_eq_getElem hjl] at hj
  exact (List.Nodup.getElem_inj_iff hnd).mp (by
    rw [Option.some.inj hi, Option.some.inj hj])

/-- Witness for C19: set calls on a 3 x 3 store, among them a repeated position and a
position outside the range; row 0 ends with the columns `[0, 2, 1]`. -/
theorem csr_row_columns_distinct_witness :
    ((SparseMatrixCSR.construct 3 3 : SparseMatrixCSR Int).setEach
      [(0, 0, 1), (0, 0, 4), (5, 5, 1), (1, 1, 2), (0, 2, 3), (0, 1, 3)]).rowCols 0 =
      [0, 2, 1] ∧
    (((SparseMatrixCSR.construct 3 3 : SparseMatrixCSR Int).setEach
      [(0, 0, 1), (0, 0, 4), (5, 5, 1), (1, 1, 2), (0, 2, 3), (0, 1, 3)]).rowCols 0).Nodup ∧
    (1 : Nat) = 1 :=
  ⟨by decide,
    (csr_row_columns_distinct 3 3
      [(0, 0, (1 : Int)), (0, 0, 4), (5, 5, 1), (1, 1, 2), (0, 2, 3), (0, 1, 3)] 0).1,
    (csr_row_columns_distinct 3 3
      [(0, 0, (1 : Int)), (0, 0, 4), (5, 5, 1), (1, 1, 2), (0, 2, 3), (0, 1, 3)] 0).2
      1 1 2 (by decide) (by decide)⟩

end SparseMatrix
